import Mathlib

/-!
# Prometheus monitoring bridge: a shallow embedding of `provider.go`

The Go package registers a fixed set of Prometheus instruments in `Load`
and updates them from a statistics snapshot in `Push`.  The embedding
keeps the process state explicit:

* the process-wide default registry of the metrics library is the
  `registry` field of `World` (a registered instrument carries its value);
* the handlers mounted on the host's HTTP mux are the `handlers` field;
* a Go `panic` is the `error` outcome of a `Go` computation, and the state
  reached at the moment of the panic is kept next to it.

An instrument value, a `float64` in Go, is a rational number.  The
conversions `float64(x)` that `Push` applies to the integers of the
snapshot round to the nearest value with a 53-bit significand, ties to
even (`float64`); the arithmetic of the metrics library on instrument
values (`Add`, `Set`) is exact.
-/

namespace Prometheus

/-! ## Strings (`strings.HasSuffix`, `strings.TrimSuffix`, `fmt.Sprintf`) -/

/-- Go `strings.HasSuffix`: `len(s) >= len(suffix) && s[len(s)-len(suffix):] == suffix`. -/
def HasSuffix (s suffix : String) : Bool :=
  decide (suffix.data.length ≤ s.data.length) &&
    decide (s.data.drop (s.data.length - suffix.data.length) = suffix.data)

/-- Go `strings.TrimSuffix`: `s[:len(s)-len(suffix)]` when `s` has the suffix, else `s`. -/
def TrimSuffix (s suffix : String) : String :=
  if HasSuffix s suffix then ⟨s.data.take (s.data.length - suffix.data.length)⟩ else s

/-! ## The metrics library: instruments, registry, panics -/

/-- The two kinds of instrument the bridge creates. -/
inductive MetricKind where
  | counter
  | gauge
  deriving DecidableEq, Repr

/-- A registered instrument: `Name` and `Help` of its options, its kind and
its current value. -/
structure Metric where
  name : String
  help : String
  kind : MetricKind
  value : ℚ
  deriving DecidableEq

/-- The process state the package acts on: the default registry of the
metrics library and the handlers mounted on the host's mux, as
`(port, pattern)` pairs. -/
structure World where
  registry : List Metric
  handlers : List (String × String)
  deriving DecidableEq

/-- The state of a freshly started process: nothing registered, nothing mounted. -/
def World.empty : World := ⟨[], []⟩

/-- The panics of the metrics library that the package can trigger. -/
inductive Panic where
  | duplicateRegistration (name : String)
  | counterCannotDecrease (name : String)
  deriving DecidableEq, Repr

/-- A Go computation over the process state: it ends normally with a
result or with a panic, and in both cases leaves a state behind. -/
def Go (α : Type) : Type := World → Except Panic α × World

/-- Normal return. -/
def Go.pure {α : Type} (a : α) : Go α := fun w => (.ok a, w)

/-- Sequencing: a panic of the first computation ends the whole. -/
def Go.bind {α β : Type} (m : Go α) (f : α → Go β) : Go β := fun w =>
  match m w with
  | (.ok a, w1) => f a w1
  | (.error e, w1) => (.error e, w1)

instance : Monad Go where
  pure := Go.pure
  bind := Go.bind

/-- Whether an instrument of that name is registered. -/
def World.registered (w : World) (n : String) : Bool :=
  w.registry.any (fun m => m.name == n)

/-- The value the registry exposes for the instrument of that name. -/
def World.valueOf (w : World) (n : String) : Option ℚ :=
  (w.registry.find? (fun m => m.name == n)).map Metric.value

/-- A handle on a registered counter (the instrument's name). -/
abbrev Counter := String

/-- A handle on a registered gauge (the instrument's name). -/
abbrev Gauge := String

/-- Modelled from the spec: `prometheus.MustRegister` of the metrics library
(not under src/).  Registration "fails fatally if `name` is already
registered"; otherwise the instrument is appended to the registry. -/
def MustRegister (c : Metric) : Go Unit := fun w =>
  if w.registered c.name then (.error (.duplicateRegistration c.name), w)
  else (.ok (), { w with registry := w.registry ++ [c] })

/-- Modelled from the spec: `Counter.Add` of the metrics library (not under
src/).  A counter "supports only add non-negative delta"; a negative
argument is the library's negative-add failure. -/
def Counter.Add (c : Counter) (v : ℚ) : Go Unit := fun w =>
  if v < 0 then (.error (.counterCannotDecrease c), w)
  else (.ok (), { w with registry := w.registry.map fun m =>
    if m.name = c then { m with value := m.value + v } else m })

/-- Modelled from the spec: `Gauge.Set` of the metrics library (not under
src/).  A gauge "supports set absolute value". -/
def Gauge.Set (g : Gauge) (v : ℚ) : Go Unit := fun w =>
  (.ok (), { w with registry := w.registry.map fun m =>
    if m.name = g then { m with value := v } else m })

/-- Go `prometheus.NewCounter` with the options `Name: n, Help: h`: a counter at zero. -/
def NewCounter (n h : String) : Metric := ⟨n, h, .counter, 0⟩

/-- Go `prometheus.NewGauge` with the options `Name: n, Help: h`: a gauge at zero. -/
def NewGauge (n h : String) : Metric := ⟨n, h, .gauge, 0⟩

/-! ## Time -/

/-- A clock reading, in nanoseconds. -/
abbrev Time := Int

/-- Go `time.Since(start)` at the clock reading `now`: a duration in nanoseconds. -/
def Since (now start : Time) : Int := now - start

/-- Go `Duration.Seconds`: the duration as a number of seconds (the exact
quotient; the rounding of the floating-point result is not modelled). -/
def Seconds (d : Int) : ℚ := (d : ℚ) / 1000000000

/-! ## The conversion `float64(x)` of an integer -/

/-- The number of low bits an integer loses when it is cut to 53
significant bits (`fuel` bounds the halvings; `n` itself is enough). -/
def excessBits : Nat → Nat → Nat
  | 0, _ => 0
  | fuel + 1, n => if n < 2 ^ 53 then 0 else excessBits fuel (n / 2) + 1

/-- The magnitude of `float64(x)` for an integer of magnitude `n`: `n`
itself up to `2^53`; above, `n` rounded to the nearest multiple of
`2^e` with a 53-bit quotient, a tie going to the even quotient. -/
def roundNat (n : Nat) : Nat :=
  if n ≤ 2 ^ 53 then n
  else
    let e := excessBits n n
    let q := n / 2 ^ e
    let r := n % 2 ^ e
    let half := 2 ^ (e - 1)
    if half < r ∨ (r = half ∧ q % 2 = 1) then (q + 1) * 2 ^ e else q * 2 ^ e

/-- Go `float64(x)` for an integer `x` of a 64-bit type: the nearest
`float64`, ties to even (the integers of Go's types are far below the
exponent range of `float64`, which is not modelled). -/
def float64 (x : Int) : ℚ :=
  if x < 0 then -((roundNat x.natAbs : Nat) : ℚ) else ((roundNat x.natAbs : Nat) : ℚ)

/-! ## The package's types -/

/-- Go `defaultPath`. -/
def defaultPath : String := "/metrics"

/-- Go `Config`. -/
structure Config where
  Path : String
  Port : String
  deriving DecidableEq

/-- Go `flowCounter`. -/
structure flowCounter where
  sent : Counter
  recv : Counter
  deriving DecidableEq

/-- Go `flowGauge`. -/
structure flowGauge where
  sent : Gauge
  recv : Gauge
  deriving DecidableEq

/-- Go `clients`. -/
structure clients where
  connected : Gauge
  persisted : Gauge
  total : Gauge
  maximum : Gauge
  deriving DecidableEq

/-- Go `subscriptions`. -/
structure subscriptions where
  total : Gauge
  maximum : Gauge
  deriving DecidableEq

/-- Go `packets`; the embedded `*flowCounter` is the field `flowCounter`. -/
structure packets where
  flowCounter : flowCounter
  connect : Counter
  connack : Counter
  publish : Prometheus.flowCounter
  puback : Prometheus.flowCounter
  pubrec : Prometheus.flowCounter
  pubrel : Prometheus.flowCounter
  pubcomp : Prometheus.flowCounter
  sub : Counter
  suback : Counter
  unsub : Counter
  unsuback : Counter
  pingreq : Counter
  pingresp : Counter
  disconnect : Prometheus.flowCounter
  auth : Prometheus.flowCounter
  unknown : Counter
  inflight : flowGauge
  retained : Gauge
  deriving DecidableEq

/-- Go `server`. -/
structure server where
  startTS : Time
  uptime : Gauge
  deriving DecidableEq

/-- Go `stat`. -/
structure stat where
  server : server
  bytes : flowCounter
  clients : clients
  packets : packets
  subs : subscriptions
  deriving DecidableEq

/-- Go `impl` (the host's `SysParams` are left out: only the mux is used, and
it is part of `World`). -/
structure impl where
  config : Config
  stat : stat
  deriving DecidableEq

/-! ## Builders -/

/-- Go `newCounter`. -/
def newCounter (n h : String) : Go Counter := do
  let c := NewCounter n h
  MustRegister c
  return c.name

/-- Go `newGauge`. -/
def newGauge (n h : String) : Go Gauge := do
  let c := NewGauge n h
  MustRegister c
  return c.name

/-- Go `newFlowCounter`. -/
def newFlowCounter (n1 h1 n2 h2 : String) : Go flowCounter := do
  let sent ← newCounter n1 h1
  let recv ← newCounter n2 h2
  return { sent := sent, recv := recv }

/-- Go `newFlowGauge`. -/
def newFlowGauge (n1 h1 n2 h2 : String) : Go flowGauge := do
  let sent ← newGauge n1 h1
  let recv ← newGauge n2 h2
  return { sent := sent, recv := recv }

/-- Go `newServer`; `now` is the reading of `time.Now()`. -/
def newServer (now : Time) : Go server := do
  let uptime ← newGauge
    "mqtt_server_uptime"
    "The amount of seconds since server started"
  return { startTS := now, uptime := uptime }

/-- Go `newClients`: the four gauges are created first and registered after. -/
def newClients : Go clients := do
  let connected := NewGauge "mqtt_clients_connected"
    "The number of clients connected to the server"
  let persisted := NewGauge "mqtt_clients_persisted"
    "The number of clients persisted on server"
  let total := NewGauge "mqtt_clients_total"
    "The total number of active and inactive clients"
  let maximum := NewGauge "mqtt_clients_maximum"
    "The number of clients ever connected to the server"
  MustRegister connected
  MustRegister persisted
  MustRegister total
  MustRegister maximum
  return { connected := connected.name, persisted := persisted.name,
           total := total.name, maximum := maximum.name }

/-- Go `newSubscriptions`. -/
def newSubscriptions : Go subscriptions := do
  let total ← newGauge
    "mqtt_subscriptions_total"
    "The total number of active subscriptions"
  let maximum ← newGauge
    "mqtt_subscriptions_maximum"
    "The maximum amount active subscriptions has ever been on server since start"
  return { total := total, maximum := maximum }

/-- The closure `formatHints` of `newPackets`: the four `fmt.Sprintf` results. -/
def formatHints (n : String) : String × String × String × String :=
  ("mqtt_packets_" ++ n ++ "_sent",
   "The total number of " ++ n ++ " packets sent since server start",
   "mqtt_packets_" ++ n ++ "_recv",
   "The total number of " ++ n ++ " packets recv since server start")

/-- Go `newFlowCounter(formatHints(n))`. -/
def newFlowCounterHints (x : String × String × String × String) : Go flowCounter :=
  newFlowCounter x.1 x.2.1 x.2.2.1 x.2.2.2

/-- Go `newPackets`. -/
def newPackets : Go packets := do
  let flowCounter ← newFlowCounter
    "mqtt_packets_total_sent"
    "The total number of packets of all types sent since server start"
    "mqtt_packets_total_recv"
    "The total number of packets of all types received since server start"
  let connect ← newCounter "mqtt_packets_connect_recv" "The total number of connect packets recv since server start"
  let connack ← newCounter "mqtt_packets_connack_recv" "The total number of connack packets sent since server start"
  let publish ← newFlowCounterHints (formatHints "publish")
  let puback ← newFlowCounterHints (formatHints "puback")
  let pubrec ← newFlowCounterHints (formatHints "pubrec")
  let pubrel ← newFlowCounterHints (formatHints "pubrel")
  let pubcomp ← newFlowCounterHints (formatHints "pubcomp")
  let sub ← newCounter "mqtt_packets_subscribe_recv" "The total number of subscribe packets recv since server start"
  let suback ← newCounter "mqtt_packets_suback_recv" "The total number of suback packets sent since server start"
  let unsub ← newCounter "mqtt_packets_unsubscribe_recv" "The total number of unsubscribe packets recv since server start"
  let unsuback ← newCounter "mqtt_packets_unsuback_recv" "The total number of unsuback packets sent since server start"
  let pingreq ← newCounter "mqtt_packets_pingreq_recv" "The total number of pingreq packets recv since server start"
  let pingresp ← newCounter "mqtt_packets_pingresp_recv" "The total number of pingresp packets sent since server start"
  let disconnect ← newFlowCounterHints (formatHints "disconnect")
  let auth ← newFlowCounterHints (formatHints "auth")
  let unknown ← newCounter "mqtt_packets_unknown_recv" "The total number of unknown packets recv since server start"
  let inflight ← newFlowGauge
    "mqtt_packets_inflight_sent"
    "The total number of packets awaiting for client acknowledgement"
    "mqtt_packets_inflight_recv"
    "The total number of packets awaiting for server acknowledgement"
  let retained ← newGauge "mqtt_packets_retained" "The total number of retained packets"
  return {
    flowCounter := flowCounter, connect := connect, connack := connack,
    publish := publish, puback := puback, pubrec := pubrec, pubrel := pubrel,
    pubcomp := pubcomp, sub := sub, suback := suback, unsub := unsub,
    unsuback := unsuback, pingreq := pingreq, pingresp := pingresp,
    disconnect := disconnect, auth := auth, unknown := unknown,
    inflight := inflight, retained := retained }

/-- Modelled from the spec: the `Handle` call on the mux of the host's HTTP
server for `port` (the host API is not under src/): it "registers the
exposition subsystem's standard handler at `path` on the supplied mount
point". -/
def Handle (port path : String) : Go Unit := fun w =>
  (.ok (), { w with handlers := w.handlers ++ [(port, path)] })

/-- The pattern `Load` hands to `Handle`: `defaultPath` when `Path` is
empty, then `strings.TrimSuffix(_, "/")`. -/
def mountPath (cfg : Config) : String :=
  TrimSuffix (if cfg.Path = "" then defaultPath else cfg.Path) "/"

/-- Go `prometheusPlugin.Load`, for a configuration of type `Config`; `now` is
the reading of `time.Now()` in `newServer`.  A normal return is the Go
result `(im, nil)`. -/
def Load (cfg : Config) (now : Time) : Go impl := do
  let path := mountPath cfg
  let server ← newServer now
  let bytes ← newFlowCounter
    "mqtt_bytes_total_sent"
    "The total number of bytes sent since server start"
    "mqtt_bytes_total_recv"
    "The total number of bytes received since server start"
  let clients ← newClients
  let packets ← newPackets
  let subs ← newSubscriptions
  let im : impl := {
    config := { cfg with Path := path },
    stat := { server := server, bytes := bytes, clients := clients,
              packets := packets, subs := subs } }
  Handle im.config.Port im.config.Path
  return im

/-! ## The statistics snapshot -/

/-- Modelled from the spec: a counter-like leaf of the host's snapshot type
`vlmonitoring.Stats` (declared outside src/); `Get` reads it.  The spec
speaks of negative deltas reaching the translator, so the leaf is a signed
integer. -/
structure Value where
  val : Int
  deriving DecidableEq

/-- The accessor `Get()` of a snapshot leaf. -/
def Value.Get (v : Value) : Int := v.val

/-- Modelled from the spec: a snapshot leaf with a "historical watermark
supplied by host": the current value behind `Get()` and the field `Max`. -/
structure MaxValue where
  val : Int
  Max : Int
  deriving DecidableEq

/-- The accessor `Get()` of a leaf with a watermark. -/
def MaxValue.Get (v : MaxValue) : Int := v.val

/-- Modelled from the spec: a sent/received pair of snapshot leaves. -/
structure Flow where
  Sent : Value
  Recv : Value
  deriving DecidableEq

/-- Modelled from the spec: `stats.Clients`, with the leaves `Push` reads. -/
structure ClientsStats where
  Connected : Value
  Persisted : Value
  Total : MaxValue
  deriving DecidableEq

/-- Modelled from the spec: `stats.Packets`, with the leaves `Push` reads. -/
structure PacketsStats where
  Total : Flow
  Connect : Value
  ConnAck : Value
  Publish : Flow
  Puback : Flow
  Pubrec : Flow
  Pubrel : Flow
  Pubcomp : Flow
  Sub : Value
  SubAck : Value
  UnSub : Value
  UnSubAck : Value
  PingReq : Value
  PingResp : Value
  Disconnect : Flow
  Auth : Flow
  Unknown : Value
  UnAckSent : Value
  UnAckRecv : Value
  Retained : Value
  deriving DecidableEq

/-- Modelled from the spec: `stats.Subs`, with the leaf `Push` reads. -/
structure SubsStats where
  Total : MaxValue
  deriving DecidableEq

/-- Modelled from the spec: the snapshot `vlmonitoring.Stats` of the host
API (declared outside src/), "containing current values for every quantity
the bridge tracks". -/
structure Stats where
  Bytes : Flow
  Clients : ClientsStats
  Packets : PacketsStats
  Subs : SubsStats
  deriving DecidableEq

/-- The snapshot whose fields are all zero. -/
def Stats.zero : Stats :=
  { Bytes := ⟨⟨0⟩, ⟨0⟩⟩,
    Clients := ⟨⟨0⟩, ⟨0⟩, ⟨0, 0⟩⟩,
    Packets := ⟨⟨⟨0⟩, ⟨0⟩⟩, ⟨0⟩, ⟨0⟩, ⟨⟨0⟩, ⟨0⟩⟩, ⟨⟨0⟩, ⟨0⟩⟩, ⟨⟨0⟩, ⟨0⟩⟩, ⟨⟨0⟩, ⟨0⟩⟩,
      ⟨⟨0⟩, ⟨0⟩⟩, ⟨0⟩, ⟨0⟩, ⟨0⟩, ⟨0⟩, ⟨0⟩, ⟨0⟩, ⟨⟨0⟩, ⟨0⟩⟩, ⟨⟨0⟩, ⟨0⟩⟩, ⟨0⟩, ⟨0⟩, ⟨0⟩, ⟨0⟩⟩,
    Subs := ⟨⟨0, 0⟩⟩ }

/-! ## Push and Shutdown -/

/-- One statement of `Push`: a call of `Add` on a counter handle or of `Set`
on a gauge handle. -/
inductive Op where
  | Add (c : Counter) (v : ℚ)
  | Set (g : Gauge) (v : ℚ)
  deriving DecidableEq

/-- The instrument a statement writes. -/
def Op.target : Op → String
  | .Add c _ => c
  | .Set g _ => g

/-- The value a statement passes. -/
def Op.arg : Op → ℚ
  | .Add _ v => v
  | .Set _ v => v

/-- Executing one statement. -/
def Op.exec : Op → Go Unit
  | .Add c v => Counter.Add c v
  | .Set g v => Gauge.Set g v

/-- Executing statements in order; a panic ends the sequence. -/
def run : List Op → Go Unit
  | [] => pure ()
  | op :: ops => do
    op.exec
    run ops

/-- The body of `impl.Push`, statement by statement; `now` is the clock
reading `time.Since` uses. -/
def pushOps (im : impl) (now : Time) (stats : Stats) : List Op := [
  .Set im.stat.server.uptime (Seconds (Since now im.stat.server.startTS)),

  .Add im.stat.bytes.sent (float64 stats.Bytes.Sent.Get),
  .Add im.stat.bytes.recv (float64 stats.Bytes.Recv.Get),

  .Set im.stat.clients.connected (float64 stats.Clients.Connected.Get),
  .Set im.stat.clients.persisted (float64 stats.Clients.Persisted.Get),
  .Set im.stat.clients.total (float64 stats.Clients.Total.Get),
  .Set im.stat.clients.maximum (float64 stats.Clients.Total.Max),

  .Add im.stat.packets.flowCounter.sent (float64 stats.Packets.Total.Sent.Get),
  .Add im.stat.packets.flowCounter.recv (float64 stats.Packets.Total.Recv.Get),
  .Add im.stat.packets.connect (float64 stats.Packets.Connect.Get),
  .Add im.stat.packets.connack (float64 stats.Packets.ConnAck.Get),
  .Add im.stat.packets.publish.sent (float64 stats.Packets.Publish.Sent.Get),
  .Add im.stat.packets.publish.recv (float64 stats.Packets.Publish.Recv.Get),
  .Add im.stat.packets.puback.sent (float64 stats.Packets.Puback.Sent.Get),
  .Add im.stat.packets.puback.recv (float64 stats.Packets.Puback.Recv.Get),
  .Add im.stat.packets.pubrec.sent (float64 stats.Packets.Pubrec.Sent.Get),
  .Add im.stat.packets.pubrec.recv (float64 stats.Packets.Pubrec.Recv.Get),
  .Add im.stat.packets.pubrel.sent (float64 stats.Packets.Pubrel.Sent.Get),
  .Add im.stat.packets.pubrel.recv (float64 stats.Packets.Pubrel.Recv.Get),
  .Add im.stat.packets.pubcomp.sent (float64 stats.Packets.Pubcomp.Sent.Get),
  .Add im.stat.packets.pubcomp.recv (float64 stats.Packets.Pubcomp.Recv.Get),
  .Add im.stat.packets.sub (float64 stats.Packets.Sub.Get),
  .Add im.stat.packets.suback (float64 stats.Packets.SubAck.Get),
  .Add im.stat.packets.unsub (float64 stats.Packets.UnSub.Get),
  .Add im.stat.packets.unsuback (float64 stats.Packets.UnSubAck.Get),
  .Add im.stat.packets.pingreq (float64 stats.Packets.PingReq.Get),
  .Add im.stat.packets.pingresp (float64 stats.Packets.PingResp.Get),
  .Add im.stat.packets.disconnect.sent (float64 stats.Packets.Disconnect.Sent.Get),
  .Add im.stat.packets.disconnect.recv (float64 stats.Packets.Disconnect.Recv.Get),
  .Add im.stat.packets.auth.sent (float64 stats.Packets.Auth.Sent.Get),
  .Add im.stat.packets.auth.recv (float64 stats.Packets.Auth.Recv.Get),

  .Add im.stat.packets.unknown (float64 stats.Packets.Unknown.Get),

  .Set im.stat.packets.inflight.sent (float64 stats.Packets.UnAckSent.Get),
  .Set im.stat.packets.inflight.recv (float64 stats.Packets.UnAckRecv.Get),

  .Set im.stat.packets.retained (float64 stats.Packets.Retained.Get),

  .Set im.stat.subs.total (float64 stats.Subs.Total.Get),
  .Set im.stat.subs.maximum (float64 stats.Subs.Total.Max)]

/-- Go `impl.Push`. -/
def Push (im : impl) (now : Time) (stats : Stats) : Go Unit :=
  run (pushOps im now stats)

/-- Go `impl.Shutdown`: `return nil` (`none` is the nil error). -/
def Shutdown (_im : impl) : Go (Option String) := do
  return none

/-- A sequence of pushes, each with its clock reading. -/
def pushAll (im : impl) : List (Time × Stats) → Go Unit
  | [] => pure ()
  | p :: ps => do
    Push im p.1 p.2
    pushAll im ps

/-- One line of the translation: an instrument name, the kind of the
instrument and the snapshot field applied to it. -/
structure Binding where
  name : String
  kind : MetricKind
  field : Stats → Int

/-- The translation table of the spec: "byte flow counters ← add
sent/received", "client gauges ← set connected, persisted, total; set
maximum", "packet counters/flow pairs ← add each packet-type's
sent/received", "in-flight flow gauge", "retained gauge", "subscription
gauges ← set total and maximum", under the names the instruments are
registered with. -/
def bindings : List Binding := [
  ⟨"mqtt_bytes_total_sent", .counter, fun s => s.Bytes.Sent.Get⟩,
  ⟨"mqtt_bytes_total_recv", .counter, fun s => s.Bytes.Recv.Get⟩,
  ⟨"mqtt_clients_connected", .gauge, fun s => s.Clients.Connected.Get⟩,
  ⟨"mqtt_clients_persisted", .gauge, fun s => s.Clients.Persisted.Get⟩,
  ⟨"mqtt_clients_total", .gauge, fun s => s.Clients.Total.Get⟩,
  ⟨"mqtt_clients_maximum", .gauge, fun s => s.Clients.Total.Max⟩,
  ⟨"mqtt_packets_total_sent", .counter, fun s => s.Packets.Total.Sent.Get⟩,
  ⟨"mqtt_packets_total_recv", .counter, fun s => s.Packets.Total.Recv.Get⟩,
  ⟨"mqtt_packets_connect_recv", .counter, fun s => s.Packets.Connect.Get⟩,
  ⟨"mqtt_packets_connack_recv", .counter, fun s => s.Packets.ConnAck.Get⟩,
  ⟨"mqtt_packets_publish_sent", .counter, fun s => s.Packets.Publish.Sent.Get⟩,
  ⟨"mqtt_packets_publish_recv", .counter, fun s => s.Packets.Publish.Recv.Get⟩,
  ⟨"mqtt_packets_puback_sent", .counter, fun s => s.Packets.Puback.Sent.Get⟩,
  ⟨"mqtt_packets_puback_recv", .counter, fun s => s.Packets.Puback.Recv.Get⟩,
  ⟨"mqtt_packets_pubrec_sent", .counter, fun s => s.Packets.Pubrec.Sent.Get⟩,
  ⟨"mqtt_packets_pubrec_recv", .counter, fun s => s.Packets.Pubrec.Recv.Get⟩,
  ⟨"mqtt_packets_pubrel_sent", .counter, fun s => s.Packets.Pubrel.Sent.Get⟩,
  ⟨"mqtt_packets_pubrel_recv", .counter, fun s => s.Packets.Pubrel.Recv.Get⟩,
  ⟨"mqtt_packets_pubcomp_sent", .counter, fun s => s.Packets.Pubcomp.Sent.Get⟩,
  ⟨"mqtt_packets_pubcomp_recv", .counter, fun s => s.Packets.Pubcomp.Recv.Get⟩,
  ⟨"mqtt_packets_subscribe_recv", .counter, fun s => s.Packets.Sub.Get⟩,
  ⟨"mqtt_packets_suback_recv", .counter, fun s => s.Packets.SubAck.Get⟩,
  ⟨"mqtt_packets_unsubscribe_recv", .counter, fun s => s.Packets.UnSub.Get⟩,
  ⟨"mqtt_packets_unsuback_recv", .counter, fun s => s.Packets.UnSubAck.Get⟩,
  ⟨"mqtt_packets_pingreq_recv", .counter, fun s => s.Packets.PingReq.Get⟩,
  ⟨"mqtt_packets_pingresp_recv", .counter, fun s => s.Packets.PingResp.Get⟩,
  ⟨"mqtt_packets_disconnect_sent", .counter, fun s => s.Packets.Disconnect.Sent.Get⟩,
  ⟨"mqtt_packets_disconnect_recv", .counter, fun s => s.Packets.Disconnect.Recv.Get⟩,
  ⟨"mqtt_packets_auth_sent", .counter, fun s => s.Packets.Auth.Sent.Get⟩,
  ⟨"mqtt_packets_auth_recv", .counter, fun s => s.Packets.Auth.Recv.Get⟩,
  ⟨"mqtt_packets_unknown_recv", .counter, fun s => s.Packets.Unknown.Get⟩,
  ⟨"mqtt_packets_inflight_sent", .gauge, fun s => s.Packets.UnAckSent.Get⟩,
  ⟨"mqtt_packets_inflight_recv", .gauge, fun s => s.Packets.UnAckRecv.Get⟩,
  ⟨"mqtt_packets_retained", .gauge, fun s => s.Packets.Retained.Get⟩,
  ⟨"mqtt_subscriptions_total", .gauge, fun s => s.Subs.Total.Get⟩,
  ⟨"mqtt_subscriptions_maximum", .gauge, fun s => s.Subs.Total.Max⟩]

/-- The statement that applies a snapshot field to its instrument: `Add`
of its `float64` conversion for a counter, `Set` for a gauge. -/
def Binding.op (e : Binding) (stats : Stats) : Op :=
  match e.kind with
  | .counter => .Add e.name (float64 (e.field stats))
  | .gauge => .Set e.name (float64 (e.field stats))

/-- A snapshot none of whose counter-backed fields is negative. -/
def Stats.countersNonneg (s : Stats) : Prop :=
  ∀ e ∈ bindings, e.kind = .counter → 0 ≤ e.field s

/-- A statement the metrics library accepts: no negative `Add`. -/
def Op.ok : Op → Prop
  | .Add _ v => 0 ≤ v
  | .Set _ _ => True

/-- What a statement does to one registered instrument. -/
def Op.fn : Op → Metric → Metric
  | .Add c v, m => if m.name = c then { m with value := m.value + v } else m
  | .Set g v, m => if m.name = g then { m with value := v } else m

/-- What a sequence of statements does to one registered instrument. -/
def applyOps (ops : List Op) (m : Metric) : Metric :=
  ops.foldl (fun m op => op.fn m) m

/-- The registry rewritten instrument by instrument. -/
def World.mapReg (w : World) (f : Metric → Metric) : World :=
  { w with registry := w.registry.map f }

/-- The handles `Load` leaves in `im.stat`. -/
def loadedStat (t0 : Time) : stat :=
  { server := ⟨t0, "mqtt_server_uptime"⟩,
    bytes := ⟨"mqtt_bytes_total_sent", "mqtt_bytes_total_recv"⟩,
    clients := ⟨"mqtt_clients_connected", "mqtt_clients_persisted",
      "mqtt_clients_total", "mqtt_clients_maximum"⟩,
    packets :=
      { flowCounter := ⟨"mqtt_packets_total_sent", "mqtt_packets_total_recv"⟩,
        connect := "mqtt_packets_connect_recv",
        connack := "mqtt_packets_connack_recv",
        publish := ⟨"mqtt_packets_publish_sent", "mqtt_packets_publish_recv"⟩,
        puback := ⟨"mqtt_packets_puback_sent", "mqtt_packets_puback_recv"⟩,
        pubrec := ⟨"mqtt_packets_pubrec_sent", "mqtt_packets_pubrec_recv"⟩,
        pubrel := ⟨"mqtt_packets_pubrel_sent", "mqtt_packets_pubrel_recv"⟩,
        pubcomp := ⟨"mqtt_packets_pubcomp_sent", "mqtt_packets_pubcomp_recv"⟩,
        sub := "mqtt_packets_subscribe_recv",
        suback := "mqtt_packets_suback_recv",
        unsub := "mqtt_packets_unsubscribe_recv",
        unsuback := "mqtt_packets_unsuback_recv",
        pingreq := "mqtt_packets_pingreq_recv",
        pingresp := "mqtt_packets_pingresp_recv",
        disconnect := ⟨"mqtt_packets_disconnect_sent", "mqtt_packets_disconnect_recv"⟩,
        auth := ⟨"mqtt_packets_auth_sent", "mqtt_packets_auth_recv"⟩,
        unknown := "mqtt_packets_unknown_recv",
        inflight := ⟨"mqtt_packets_inflight_sent", "mqtt_packets_inflight_recv"⟩,
        retained := "mqtt_packets_retained" },
    subs := ⟨"mqtt_subscriptions_total", "mqtt_subscriptions_maximum"⟩ }

/-- The bridge `Load` returns. -/
def loadedImpl (cfg : Config) (t0 : Time) : impl :=
  { config := { cfg with Path := mountPath cfg }, stat := loadedStat t0 }

/-- The names `Load` registers, in registration order, with their kinds. -/
def loadedKinds : List (String × MetricKind) :=
  ("mqtt_server_uptime", .gauge) :: bindings.map fun e => (e.name, e.kind)

/-- The value a binding leaves in its instrument: a counter accumulates, a
gauge is replaced. -/
def Binding.update (e : Binding) (s : Stats) (v : ℚ) : ℚ :=
  match e.kind with
  | .counter => v + float64 (e.field s)
  | .gauge => float64 (e.field s)

/-- What a push of the loaded bridge does to the registry. -/
def pushFn (cfg : Config) (t0 now : Time) (s : Stats) : Metric → Metric :=
  applyOps (pushOps (loadedImpl cfg t0) now s)

instance (s : Stats) : Decidable s.countersNonneg := by
  unfold Stats.countersNonneg
  infer_instance

/-- A snapshot whose 36 tracked leaves carry the pairwise distinct values
1 to 36, in the order of the type's declaration. -/
def Stats.probe : Stats :=
  { Bytes := ⟨⟨1⟩, ⟨2⟩⟩,
    Clients := ⟨⟨3⟩, ⟨4⟩, ⟨5, 6⟩⟩,
    Packets := ⟨⟨⟨7⟩, ⟨8⟩⟩, ⟨9⟩, ⟨10⟩, ⟨⟨11⟩, ⟨12⟩⟩, ⟨⟨13⟩, ⟨14⟩⟩, ⟨⟨15⟩, ⟨16⟩⟩,
      ⟨⟨17⟩, ⟨18⟩⟩, ⟨⟨19⟩, ⟨20⟩⟩, ⟨21⟩, ⟨22⟩, ⟨23⟩, ⟨24⟩, ⟨25⟩, ⟨26⟩, ⟨⟨27⟩, ⟨28⟩⟩,
      ⟨⟨29⟩, ⟨30⟩⟩, ⟨31⟩, ⟨32⟩, ⟨33⟩, ⟨34⟩⟩,
    Subs := ⟨⟨35, 36⟩⟩ }

/-- The all-zero snapshot with the given bytes-sent value. -/
def Stats.withBytesSent (n : Int) : Stats :=
  { Stats.zero with Bytes := ⟨⟨n⟩, ⟨0⟩⟩ }

/-- The all-zero snapshot with the given clients-connected value. -/
def Stats.withClientsConnected (n : Int) : Stats :=
  { Stats.zero with Clients := ⟨⟨n⟩, ⟨0⟩, ⟨0, 0⟩⟩ }

/-- A computation that never unregisters an instrument. -/
def Keeps {α : Type} (m : Go α) : Prop :=
  ∀ w n, w.registered n = true → (m w).2.registered n = true

/-- The all-zero snapshot with the given bytes-sent and packets-total-sent
values. -/
def Stats.withBytesAndPacketsSent (b p : Int) : Stats :=
  { Stats.zero with
      Bytes := ⟨⟨b⟩, ⟨0⟩⟩,
      Packets := { Stats.zero.Packets with Total := ⟨⟨p⟩, ⟨0⟩⟩ } }

/-- The all-zero snapshot with the given bytes-sent value, clients-connected
value and clients watermark. -/
def Stats.withBytesAndClients (b c m : Int) : Stats :=
  { Stats.zero with Bytes := ⟨⟨b⟩, ⟨0⟩⟩, Clients := ⟨⟨c⟩, ⟨0⟩, ⟨0, m⟩⟩ }

/-- The probe snapshot with bytes-sent replaced by -1. -/
def Stats.probeNegative : Stats :=
  { Stats.probe with Bytes := ⟨⟨-1⟩, ⟨2⟩⟩ }

/-! ## Lemmas -/

theorem pow_excessBits_le (fuel n : Nat) (h : 0 < n) : 2 ^ excessBits fuel n ≤ n := by
  induction fuel generalizing n with
  | zero => simpa [excessBits] using h
  | succ f ih =>
    unfold excessBits
    split
    · simpa using h
    · rename_i hn
      have hn2 : 0 < n / 2 := by
        have : 2 ^ 53 ≤ n := not_lt.mp hn
        omega
      have := ih (n / 2) hn2
      rw [pow_succ]
      omega

theorem roundNat_pos (n : Nat) (h : 0 < n) : 0 < roundNat n := by
  unfold roundNat
  split
  · exact h
  · have hq : 0 < n / 2 ^ excessBits n n :=
      Nat.div_pos (pow_excessBits_le n n h) (by positivity)
    simp only
    split <;> positivity

/-- The conversion keeps the sign: it is negative exactly on negative integers. -/
theorem float64_nonneg_iff (x : Int) : 0 ≤ float64 x ↔ 0 ≤ x := by
  unfold float64
  constructor
  · intro h
    by_contra hx
    have hneg : x < 0 := not_le.mp hx
    rw [if_pos hneg] at h
    have hpos : 0 < roundNat x.natAbs := roundNat_pos _ (Int.natAbs_pos.mpr (ne_of_lt hneg))
    have : (0 : ℚ) < ((roundNat x.natAbs : Nat) : ℚ) := by exact_mod_cast hpos
    linarith
  · intro h
    rw [if_neg (not_lt.mpr h)]
    positivity

/-- The conversion is exact on integers of magnitude at most `2^53`. -/
theorem float64_exact (x : Int) (h : x.natAbs ≤ 2 ^ 53) : float64 x = (x : ℚ) := by
  unfold float64 roundNat
  rw [if_pos h]
  have h2 : ((x.natAbs : Nat) : ℚ) = ((|x| : Int) : ℚ) := Nat.cast_natAbs x
  by_cases hx : x < 0
  · rw [if_pos hx, h2, abs_of_neg hx]
    push_cast
    ring
  · rw [if_neg hx, h2, abs_of_nonneg (not_lt.mp hx)]

theorem float64_zero : float64 0 = 0 := by
  rw [float64_exact 0 (by decide)]
  rfl

theorem bind_apply {α β : Type} (m : Go α) (f : α → Go β) (w : World) :
    (m >>= f) w = Go.bind m f w := rfl

theorem pure_apply {α : Type} (a : α) (w : World) :
    (pure a : Go α) w = (.ok a, w) := rfl

theorem exec_ok (op : Op) (h : op.ok) (w : World) :
    op.exec w = (.ok (), w.mapReg op.fn) := by
  cases op with
  | Add c v =>
    have hv : ¬ v < 0 := not_lt.mpr h
    simp [Op.exec, Counter.Add, hv, World.mapReg, Op.fn]
  | Set g v => simp [Op.exec, Gauge.Set, World.mapReg, Op.fn]

theorem exec_not_ok (op : Op) (h : ¬ op.ok) (w : World) :
    op.exec w = (.error (.counterCannotDecrease op.target), w) := by
  cases op with
  | Add c v =>
    have hv : v < 0 := not_le.mp h
    simp [Op.exec, Counter.Add, hv, Op.target]
  | Set g v => exact absurd trivial h

theorem run_cons (op : Op) (ops : List Op) (w : World) :
    run (op :: ops) w = Go.bind op.exec (fun _ => run ops) w := rfl

theorem run_ok (ops : List Op) (h : ∀ op ∈ ops, op.ok) (w : World) :
    run ops w = (.ok (), w.mapReg (applyOps ops)) := by
  induction ops generalizing w with
  | nil =>
    have hid : applyOps [] = id := rfl
    show (Except.ok (), w) = _
    simp [World.mapReg, hid]
  | cons op ops ih =>
    have h1 : op.ok := h op (List.mem_cons_self _ _)
    have h2 : ∀ o ∈ ops, o.ok := fun o ho => h o (List.mem_cons_of_mem _ ho)
    rw [run_cons, Go.bind, exec_ok op h1]
    simp only [ih h2]
    simp [World.mapReg, applyOps, List.map_map, Function.comp_def]

theorem fn_name (op : Op) (m : Metric) : (op.fn m).name = m.name := by
  cases op <;> simp only [Op.fn] <;> split <;> rfl

theorem applyOps_name (ops : List Op) (m : Metric) : (applyOps ops m).name = m.name := by
  induction ops generalizing m with
  | nil => rfl
  | cons op ops ih =>
    show (applyOps ops (op.fn m)).name = m.name
    rw [ih, fn_name]

theorem find_map_name (f : Metric → Metric) (hf : ∀ m, (f m).name = m.name)
    (l : List Metric) (n : String) :
    (l.map f).find? (fun m => m.name == n) = (l.find? (fun m => m.name == n)).map f := by
  induction l with
  | nil => rfl
  | cons a l ih =>
    simp only [List.map_cons, List.find?_cons, hf]
    split <;> simp [ih]

/-- The value exposed after a name-preserving rewrite of the registry. -/
theorem valueOf_mapReg (f : Metric → Metric) (hf : ∀ m, (f m).name = m.name)
    (g : ℚ → ℚ) (n : String) (hg : ∀ m, m.name = n → (f m).value = g m.value)
    (w : World) : (w.mapReg f).valueOf n = (w.valueOf n).map g := by
  unfold World.valueOf World.mapReg
  simp only [find_map_name f hf]
  cases hfind : w.registry.find? (fun m => m.name == n) with
  | none => rfl
  | some m =>
    have hm : m.name = n := by simpa using List.find?_some hfind
    simp [hg m hm]

theorem names_mapReg (f : Metric → Metric) (hf : ∀ m, (f m).name = m.name) (w : World) :
    (w.mapReg f).registry.map Metric.name = w.registry.map Metric.name := by
  simp [World.mapReg, List.map_map, Function.comp_def, hf]

set_option maxRecDepth 100000 in
theorem Load_empty (cfg : Config) (t0 : Time) :
    ∃ w0, Load cfg t0 World.empty = (.ok (loadedImpl cfg t0), w0) ∧
      w0.registry.map (fun m => (m.name, m.kind, m.value)) =
        loadedKinds.map (fun p => (p.1, p.2, (0 : ℚ))) ∧
      w0.handlers = [(cfg.Port, mountPath cfg)] :=
  ⟨_, rfl, rfl, rfl⟩

theorem pushOps_loaded (cfg : Config) (t0 now : Time) (s : Stats) :
    pushOps (loadedImpl cfg t0) now s =
      .Set "mqtt_server_uptime" (Seconds (Since now t0)) :: bindings.map (fun e => e.op s) :=
  rfl

theorem op_target (e : Binding) (s : Stats) : (e.op s).target = e.name := by
  unfold Binding.op
  cases e.kind <;> rfl

theorem op_fn_value (e : Binding) (s : Stats) (m : Metric) (hm : m.name = e.name) :
    ((e.op s).fn m).value = e.update s m.value := by
  unfold Binding.op Binding.update
  cases e.kind <;> simp [Op.fn, hm]

theorem pushTargets (cfg : Config) (t0 now : Time) (s : Stats) :
    (pushOps (loadedImpl cfg t0) now s).map Op.target =
      "mqtt_server_uptime" :: bindings.map Binding.name := by
  rw [pushOps_loaded, List.map_cons, List.map_map]
  congr 1

set_option maxRecDepth 100000 in
theorem loadedNames_nodup : ("mqtt_server_uptime" :: bindings.map Binding.name).Nodup := by
  decide

theorem fn_of_ne (o : Op) (m : Metric) (h : o.target ≠ m.name) : o.fn m = m := by
  cases o with
  | Add c v =>
    have hc : ¬ m.name = c := fun hc => h hc.symm
    simp [Op.fn, hc]
  | Set g v =>
    have hc : ¬ m.name = g := fun hc => h hc.symm
    simp [Op.fn, hc]

theorem applyOps_cons (o : Op) (ops : List Op) (m : Metric) :
    applyOps (o :: ops) m = applyOps ops (o.fn m) := rfl

theorem applyOps_of_ne (ops : List Op) (m : Metric) (h : ∀ o ∈ ops, o.target ≠ m.name) :
    applyOps ops m = m := by
  induction ops with
  | nil => rfl
  | cons o os ih =>
    rw [applyOps_cons, fn_of_ne o m (h o (List.mem_cons_self _ _))]
    exact ih (fun o' ho' => h o' (List.mem_cons_of_mem _ ho'))

/-- When no two statements write the same instrument, the statement that
writes an instrument decides what the sequence does to it. -/
theorem applyOps_unique (ops : List Op) (hnd : (ops.map Op.target).Nodup) (op : Op)
    (hop : op ∈ ops) (m : Metric) (hm : op.target = m.name) :
    applyOps ops m = op.fn m := by
  induction ops with
  | nil => cases hop
  | cons o os ih =>
    rw [List.map_cons, List.nodup_cons] at hnd
    rw [applyOps_cons]
    rcases List.mem_cons.mp hop with rfl | hop'
    · apply applyOps_of_ne
      intro o' ho' heq
      apply hnd.1
      rw [fn_name] at heq
      rw [hm, ← heq]
      exact List.mem_map_of_mem _ ho'
    · have hne : o.target ≠ m.name := by
        intro heq
        apply hnd.1
        rw [heq, ← hm]
        exact List.mem_map_of_mem _ hop'
      rw [fn_of_ne o m hne]
      exact ih hnd.2 hop'

theorem push_ops_ok (cfg : Config) (t0 now : Time) (s : Stats) (h : s.countersNonneg) :
    ∀ op ∈ pushOps (loadedImpl cfg t0) now s, op.ok := by
  intro op hop
  rw [pushOps_loaded] at hop
  rcases List.mem_cons.mp hop with rfl | hop'
  · trivial
  · obtain ⟨e, he, rfl⟩ := List.mem_map.mp hop'
    have hk := h e he
    unfold Binding.op
    cases hkind : e.kind with
    | counter =>
      show (0 : ℚ) ≤ float64 (e.field s)
      exact (float64_nonneg_iff _).mpr (hk hkind)
    | gauge => trivial

theorem Push_loaded (cfg : Config) (t0 now : Time) (s : Stats) (h : s.countersNonneg)
    (w : World) :
    Push (loadedImpl cfg t0) now s w = (.ok (), w.mapReg (pushFn cfg t0 now s)) :=
  run_ok _ (push_ops_ok cfg t0 now s h) w

theorem pushFn_name (cfg : Config) (t0 now : Time) (s : Stats) (m : Metric) :
    (pushFn cfg t0 now s m).name = m.name :=
  applyOps_name _ m

theorem pushFn_binding (cfg : Config) (t0 now : Time) (s : Stats) (e : Binding)
    (he : e ∈ bindings) (m : Metric) (hm : m.name = e.name) :
    (pushFn cfg t0 now s m).value = e.update s m.value := by
  have hnd : ((pushOps (loadedImpl cfg t0) now s).map Op.target).Nodup := by
    rw [pushTargets]; exact loadedNames_nodup
  have hop : e.op s ∈ pushOps (loadedImpl cfg t0) now s := by
    rw [pushOps_loaded]
    exact List.mem_cons_of_mem _ (List.mem_map_of_mem _ he)
  unfold pushFn
  rw [applyOps_unique _ hnd (e.op s) hop m (by rw [op_target, hm])]
  exact op_fn_value e s m hm

theorem pushFn_uptime (cfg : Config) (t0 now : Time) (s : Stats) (m : Metric)
    (hm : m.name = "mqtt_server_uptime") :
    (pushFn cfg t0 now s m).value = Seconds (Since now t0) := by
  have hnd : ((pushOps (loadedImpl cfg t0) now s).map Op.target).Nodup := by
    rw [pushTargets]; exact loadedNames_nodup
  have hop : Op.Set "mqtt_server_uptime" (Seconds (Since now t0)) ∈
      pushOps (loadedImpl cfg t0) now s := by
    rw [pushOps_loaded]
    exact List.mem_cons_self _ _
  unfold pushFn
  rw [applyOps_unique _ hnd _ hop m (by rw [hm]; rfl)]
  simp [Op.fn, hm]

/-- The value of a bound instrument after one push of the loaded bridge. -/
theorem valueOf_push (cfg : Config) (t0 now : Time) (s : Stats) (e : Binding)
    (he : e ∈ bindings) (w : World) :
    (w.mapReg (pushFn cfg t0 now s)).valueOf e.name = (w.valueOf e.name).map (e.update s) :=
  valueOf_mapReg _ (pushFn_name cfg t0 now s) _ _
    (fun m hm => pushFn_binding cfg t0 now s e he m hm) w

/-- The uptime gauge after one push of the loaded bridge. -/
theorem valueOf_push_uptime (cfg : Config) (t0 now : Time) (s : Stats) (w : World) :
    (w.mapReg (pushFn cfg t0 now s)).valueOf "mqtt_server_uptime" =
      (w.valueOf "mqtt_server_uptime").map (fun _ => Seconds (Since now t0)) :=
  valueOf_mapReg _ (pushFn_name cfg t0 now s) _ _
    (fun m hm => pushFn_uptime cfg t0 now s m hm) w

theorem pushAll_cons (im : impl) (p : Time × Stats) (ps : List (Time × Stats)) (w : World) :
    pushAll im (p :: ps) w = Go.bind (Push im p.1 p.2) (fun _ => pushAll im ps) w := rfl

theorem pushAll_loaded (cfg : Config) (t0 : Time) (pushes : List (Time × Stats))
    (h : ∀ p ∈ pushes, p.2.countersNonneg) (w : World) :
    ∃ w1, pushAll (loadedImpl cfg t0) pushes w = (.ok (), w1) ∧
      w1.registry.map Metric.name = w.registry.map Metric.name ∧
      w1.handlers = w.handlers ∧
      ∀ e ∈ bindings, w1.valueOf e.name =
        (w.valueOf e.name).map (fun v => pushes.foldl (fun v p => e.update p.2 v) v) := by
  induction pushes generalizing w with
  | nil =>
    refine ⟨w, rfl, rfl, rfl, ?_⟩
    intro e _
    simp
  | cons p ps ih =>
    have hp : p.2.countersNonneg := h p (List.mem_cons_self _ _)
    have hps : ∀ q ∈ ps, q.2.countersNonneg := fun q hq => h q (List.mem_cons_of_mem _ hq)
    obtain ⟨w1, h1, h2, h3, h4⟩ := ih hps (w.mapReg (pushFn cfg t0 p.1 p.2))
    refine ⟨w1, ?_, ?_, ?_, ?_⟩
    · rw [pushAll_cons, Go.bind, Push_loaded cfg t0 p.1 p.2 hp]
      exact h1
    · rw [h2, names_mapReg _ (pushFn_name cfg t0 p.1 p.2)]
    · rw [h3]; rfl
    · intro e he
      rw [h4 e he, valueOf_push cfg t0 p.1 p.2 e he]
      cases w.valueOf e.name <;> simp

theorem foldl_counter (e : Binding) (hk : e.kind = .counter) (pushes : List (Time × Stats))
    (v : ℚ) :
    pushes.foldl (fun v p => e.update p.2 v) v =
      v + (pushes.map (fun p => float64 (e.field p.2))).sum := by
  induction pushes generalizing v with
  | nil => simp
  | cons p ps ih =>
    simp only [List.foldl_cons, List.map_cons, List.sum_cons]
    rw [ih]
    simp only [Binding.update, hk]
    ring

theorem foldl_gauge (e : Binding) (hk : e.kind = .gauge) (pushes : List (Time × Stats))
    (last : Time × Stats) (v : ℚ) :
    (pushes ++ [last]).foldl (fun v p => e.update p.2 v) v = float64 (e.field last.2) := by
  simp [List.foldl_append, Binding.update, hk]

/-- Every bound instrument is registered and at zero after `Load` on the
empty state. -/
theorem loaded_valueOf (w0 : World)
    (hreg : w0.registry.map (fun m => (m.name, m.kind, m.value)) =
      loadedKinds.map (fun p => (p.1, p.2, (0 : ℚ))))
    (n : String) (hn : n ∈ "mqtt_server_uptime" :: bindings.map Binding.name) :
    w0.valueOf n = some 0 := by
  have hnames : w0.registry.map Metric.name = "mqtt_server_uptime" :: bindings.map Binding.name := by
    have := congrArg (List.map (fun p : String × MetricKind × ℚ => p.1)) hreg
    simpa [loadedKinds, List.map_map, Function.comp_def] using this
  have hval : ∀ m ∈ w0.registry, m.value = 0 := by
    intro m hm
    have hmem : (m.name, m.kind, m.value) ∈ loadedKinds.map (fun p => (p.1, p.2, (0 : ℚ))) := by
      rw [← hreg]
      exact List.mem_map_of_mem (fun m => (m.name, m.kind, m.value)) hm
    obtain ⟨p, _, hp⟩ := List.mem_map.mp hmem
    have := congrArg (fun q : String × MetricKind × ℚ => q.2.2) hp
    simpa using this.symm
  rw [← hnames] at hn
  obtain ⟨m, hm, hmn⟩ := List.mem_map.mp hn
  unfold World.valueOf
  cases hfind : w0.registry.find? (fun m => m.name == n) with
  | none =>
    have := List.find?_eq_none.mp hfind m hm
    simp [hmn] at this
  | some m' =>
    have hm' : m' ∈ w0.registry := List.mem_of_find?_eq_some hfind
    simp [hval m' hm']

/-! ## Pushes that panic -/

/-- The outcome of any sequence of statements: the statements before the
first rejected one are applied, and the sequence panics at that one. -/
theorem run_result (ops : List Op) (w : World) :
    ∃ pre suf, ops = pre ++ suf ∧ (∀ o ∈ pre, o.ok) ∧
      (run ops w).2 = w.mapReg (applyOps pre) ∧
      ((suf = [] ∧ (run ops w).1 = .ok ()) ∨
        ∃ o rest, suf = o :: rest ∧ ¬ o.ok ∧
          (run ops w).1 = .error (.counterCannotDecrease o.target)) := by
  induction ops generalizing w with
  | nil =>
    refine ⟨[], [], rfl, by simp, ?_, Or.inl ⟨rfl, rfl⟩⟩
    have hid : applyOps [] = id := rfl
    show w = _
    simp [World.mapReg, hid]
  | cons op ops ih =>
    by_cases hok : op.ok
    · obtain ⟨pre, suf, h1, h2, h3, h4⟩ := ih (w.mapReg op.fn)
      have hrun : run (op :: ops) w = run ops (w.mapReg op.fn) := by
        rw [run_cons, Go.bind, exec_ok op hok]
      refine ⟨op :: pre, suf, by rw [h1]; rfl, ?_, ?_, ?_⟩
      · intro o ho
        rcases List.mem_cons.mp ho with rfl | ho'
        · exact hok
        · exact h2 o ho'
      · rw [hrun, h3]
        simp [World.mapReg, List.map_map, Function.comp_def, applyOps]
      · rw [hrun]; exact h4
    · have hrun : run (op :: ops) w = (.error (.counterCannotDecrease op.target), w) := by
        rw [run_cons, Go.bind, exec_not_ok op hok]
      refine ⟨[], op :: ops, rfl, by simp, ?_, Or.inr ⟨op, ops, rfl, hok, ?_⟩⟩
      · rw [hrun]
        have hid : applyOps [] = id := rfl
        show w = _
        simp [World.mapReg, hid]
      · rw [hrun]

/-- Statements that are accepted and write an instrument only by a
non-negative `Add` do not lower its value. -/
theorem applyOps_mono (ops : List Op) (m : Metric)
    (h : ∀ o ∈ ops, o.target = m.name → ∃ v, o = .Add m.name v ∧ 0 ≤ v) :
    m.value ≤ (applyOps ops m).value := by
  induction ops generalizing m with
  | nil => exact le_refl _
  | cons o os ih =>
    rw [applyOps_cons]
    have hrest : ∀ o' ∈ os, o'.target = (o.fn m).name →
        ∃ v, o' = .Add (o.fn m).name v ∧ 0 ≤ v := by
      intro o' ho' ht
      rw [fn_name] at ht ⊢
      exact h o' (List.mem_cons_of_mem _ ho') ht
    refine le_trans ?_ (ih (o.fn m) hrest)
    by_cases ht : o.target = m.name
    · obtain ⟨v, rfl, hv⟩ := h o (List.mem_cons_self _ _) ht
      simp only [Op.fn, if_true]
      linarith
    · rw [fn_of_ne o m ht]

/-- The only statement of a push that writes a bound instrument is the
statement of its binding. -/
theorem push_op_of_target (cfg : Config) (t0 now : Time) (s : Stats) (e : Binding)
    (he : e ∈ bindings) (o : Op) (ho : o ∈ pushOps (loadedImpl cfg t0) now s)
    (ht : o.target = e.name) : o = e.op s := by
  have hnd : ((pushOps (loadedImpl cfg t0) now s).map Op.target).Nodup := by
    rw [pushTargets]; exact loadedNames_nodup
  have hop : e.op s ∈ pushOps (loadedImpl cfg t0) now s := by
    rw [pushOps_loaded]
    exact List.mem_cons_of_mem _ (List.mem_map_of_mem _ he)
  exact List.inj_on_of_nodup_map hnd ho hop (by rw [ht, op_target])

/-- Whatever a push does, and whether or not it panics, the state it leaves
has every counter at or above its prior value, and the same instruments. -/
theorem push_state (cfg : Config) (t0 now : Time) (s : Stats) (w : World) :
    ∃ f : Metric → Metric, (Push (loadedImpl cfg t0) now s w).2 = w.mapReg f ∧
      (∀ m, (f m).name = m.name) ∧
      ∀ e ∈ bindings, e.kind = .counter → ∀ m, m.name = e.name → m.value ≤ (f m).value := by
  obtain ⟨pre, suf, h1, h2, h3, _⟩ := run_result (pushOps (loadedImpl cfg t0) now s) w
  refine ⟨applyOps pre, h3, applyOps_name pre, ?_⟩
  intro e he hk m hm
  apply applyOps_mono
  intro o ho ht
  have hmem : o ∈ pushOps (loadedImpl cfg t0) now s := by
    rw [h1]; exact List.mem_append_left _ ho
  have ho_eq := push_op_of_target cfg t0 now s e he o hmem (by rw [ht, hm])
  have hok := h2 o ho
  rw [ho_eq] at hok ⊢
  unfold Binding.op at hok ⊢
  rw [hk] at hok ⊢
  exact ⟨_, by rw [hm], hok⟩

/-- A push completes exactly when no counter-backed field is negative. -/
theorem push_ok_iff (cfg : Config) (t0 now : Time) (s : Stats) (w : World) :
    (Push (loadedImpl cfg t0) now s w).1 = .ok () ↔ s.countersNonneg := by
  constructor
  · intro hok e he hk
    obtain ⟨pre, suf, h1, h2, _, h4⟩ := run_result (pushOps (loadedImpl cfg t0) now s) w
    rcases h4 with ⟨hsuf, _⟩ | ⟨o, rest, _, _, herr⟩
    · have hop : e.op s ∈ pushOps (loadedImpl cfg t0) now s := by
        rw [pushOps_loaded]
        exact List.mem_cons_of_mem _ (List.mem_map_of_mem _ he)
      rw [h1, hsuf, List.append_nil] at hop
      have := h2 _ hop
      unfold Binding.op at this
      rw [hk] at this
      have h0 : (0 : ℚ) ≤ float64 (e.field s) := this
      exact (float64_nonneg_iff _).mp h0
    · unfold Push at hok
      rw [herr] at hok
      cases hok
  · intro h
    rw [Push_loaded cfg t0 now s h]

/-! ## Registration only adds -/

theorem keeps_pure {α : Type} (a : α) : Keeps (pure a : Go α) :=
  fun _ _ h => h

theorem keeps_bind {α β : Type} (m : Go α) (f : α → Go β) (hm : Keeps m)
    (hf : ∀ a, Keeps (f a)) : Keeps (m >>= f) := by
  intro w n h
  rw [bind_apply]
  unfold Go.bind
  have h1 := hm w n h
  rcases hmw : m w with ⟨r, w1⟩
  rw [hmw] at h1
  cases r with
  | error e => exact h1
  | ok a => exact hf a w1 n h1

theorem registered_append (w : World) (c : Metric) (n : String) :
    World.registered { w with registry := w.registry ++ [c] } n =
      (w.registered n || (c.name == n)) := by
  simp [World.registered]

theorem keeps_MustRegister (c : Metric) : Keeps (MustRegister c) := by
  intro w n h
  unfold MustRegister
  split
  · exact h
  · rw [registered_append, h]; rfl

theorem keeps_Handle (port path : String) : Keeps (Handle port path) :=
  fun _ _ h => h

theorem keeps_newCounter (n h : String) : Keeps (newCounter n h) :=
  keeps_bind _ _ (keeps_MustRegister _) (fun _ => keeps_pure _)

theorem keeps_newGauge (n h : String) : Keeps (newGauge n h) :=
  keeps_bind _ _ (keeps_MustRegister _) (fun _ => keeps_pure _)

theorem keeps_newFlowCounter (n1 h1 n2 h2 : String) : Keeps (newFlowCounter n1 h1 n2 h2) :=
  keeps_bind _ _ (keeps_newCounter _ _) (fun _ =>
    keeps_bind _ _ (keeps_newCounter _ _) (fun _ => keeps_pure _))

theorem keeps_newFlowGauge (n1 h1 n2 h2 : String) : Keeps (newFlowGauge n1 h1 n2 h2) :=
  keeps_bind _ _ (keeps_newGauge _ _) (fun _ =>
    keeps_bind _ _ (keeps_newGauge _ _) (fun _ => keeps_pure _))

theorem keeps_newClients : Keeps newClients :=
  keeps_bind _ _ (keeps_MustRegister _) (fun _ =>
    keeps_bind _ _ (keeps_MustRegister _) (fun _ =>
      keeps_bind _ _ (keeps_MustRegister _) (fun _ =>
        keeps_bind _ _ (keeps_MustRegister _) (fun _ => keeps_pure _))))

theorem keeps_newSubscriptions : Keeps newSubscriptions :=
  keeps_bind _ _ (keeps_newGauge _ _) (fun _ =>
    keeps_bind _ _ (keeps_newGauge _ _) (fun _ => keeps_pure _))

theorem keeps_newPackets : Keeps newPackets := by
  unfold newPackets newFlowCounterHints
  repeat' first
    | with_reducible exact keeps_pure _
    | with_reducible exact keeps_newCounter _ _
    | with_reducible exact keeps_newGauge _ _
    | with_reducible exact keeps_newFlowCounter _ _ _ _
    | with_reducible exact keeps_newFlowGauge _ _ _ _
    | with_reducible apply keeps_bind
    | intro _

/-- The body of `Load` starts with `newServer`, and what follows never unregisters. -/
theorem Load_decomp (cfg : Config) (t : Time) :
    ∃ rest : server → Go impl, (∀ s, Keeps (rest s)) ∧
      ∀ w, Load cfg t w = Go.bind (newServer t) rest w := by
  refine ⟨_, ?_, fun w => rfl⟩
  intro s
  dsimp only
  repeat' first
    | with_reducible exact keeps_pure _
    | with_reducible exact keeps_newFlowCounter _ _ _ _
    | with_reducible exact keeps_newClients
    | with_reducible exact keeps_newPackets
    | with_reducible exact keeps_newSubscriptions
    | with_reducible exact keeps_Handle _ _
    | with_reducible apply keeps_bind
    | intro _

theorem newServer_apply (t : Time) (w : World) :
    newServer t w =
      if w.registered "mqtt_server_uptime" then
        (.error (.duplicateRegistration "mqtt_server_uptime"), w)
      else
        (.ok ⟨t, "mqtt_server_uptime"⟩,
          { w with registry := w.registry ++
            [NewGauge "mqtt_server_uptime" "The amount of seconds since server started"] }) := by
  show Go.bind (Go.bind (MustRegister _) _) _ w = _
  unfold Go.bind MustRegister
  by_cases h : w.registered "mqtt_server_uptime" = true
  · simp only [NewGauge, h, if_true]
  · simp only [NewGauge, h, if_false]
    rfl

/-- A `Load` on a state where the uptime gauge is registered panics at its
first registration and leaves the state as it was. -/
theorem Load_registered (cfg : Config) (t : Time) (w : World)
    (h : w.registered "mqtt_server_uptime" = true) :
    Load cfg t w = (.error (.duplicateRegistration "mqtt_server_uptime"), w) := by
  obtain ⟨rest, _, hrest⟩ := Load_decomp cfg t
  rw [hrest, Go.bind, newServer_apply, if_pos h]

/-- After a `Load` that returned, the uptime gauge is registered. -/
theorem Load_ok_registered (cfg : Config) (t : Time) (w : World) (im : impl) (w1 : World)
    (h : Load cfg t w = (.ok im, w1)) : w1.registered "mqtt_server_uptime" = true := by
  obtain ⟨rest, hkeeps, hrest⟩ := Load_decomp cfg t
  rw [hrest, Go.bind, newServer_apply] at h
  by_cases hreg : w.registered "mqtt_server_uptime" = true
  · rw [if_pos hreg] at h
    simp at h
  · rw [if_neg hreg] at h
    simp only at h
    have hk := hkeeps ⟨t, "mqtt_server_uptime"⟩
      { w with registry := w.registry ++
        [NewGauge "mqtt_server_uptime" "The amount of seconds since server started"] }
      "mqtt_server_uptime" (by rw [registered_append]; simp [NewGauge])
    rw [h] at hk
    exact hk

/-! ## Suffixes -/

theorem hasSuffix_iff (s t : String) : HasSuffix s t = true ↔ t.data <:+ s.data := by
  unfold HasSuffix
  simp only [Bool.and_eq_true, decide_eq_true_eq]
  constructor
  · rintro ⟨_, h⟩
    exact List.suffix_iff_eq_drop.mpr h.symm
  · intro h
    exact ⟨h.length_le, (List.suffix_iff_eq_drop.mp h).symm⟩

theorem trimSuffix_of_suffix (a t : List Char) : TrimSuffix ⟨a ++ t⟩ ⟨t⟩ = ⟨a⟩ := by
  have h : HasSuffix ⟨a ++ t⟩ ⟨t⟩ = true := (hasSuffix_iff _ _).mpr (List.suffix_append a t)
  unfold TrimSuffix
  rw [if_pos h]
  simp

theorem trimSuffix_of_not (s t : String) (h : ¬ HasSuffix s t = true) : TrimSuffix s t = s := by
  unfold TrimSuffix
  rw [if_neg h]

theorem slash_suffix_iff (a : List Char) :
    ['/', '/'] <:+ a ++ ['/'] ↔ ['/'] <:+ a := by
  constructor
  · rintro ⟨t, ht⟩
    refine ⟨t, ?_⟩
    have h2 : (t ++ ['/']) ++ ['/'] = a ++ ['/'] := by simpa using ht
    exact List.append_inj_left' h2 rfl
  · rintro ⟨t, ht⟩
    refine ⟨t, ?_⟩
    rw [← ht]
    simp

theorem mountPath_empty (cfg : Config) (h : cfg.Path = "") : mountPath cfg = "/metrics" := by
  unfold mountPath
  rw [if_pos h]
  decide

theorem mountPath_nonempty (cfg : Config) (h : cfg.Path ≠ "") :
    mountPath cfg = TrimSuffix cfg.Path "/" := by
  unfold mountPath
  rw [if_neg h]

theorem mountPath_slash (cfg : Config) (p : String) (h : cfg.Path = p ++ "/") :
    mountPath cfg = p := by
  have hne : cfg.Path ≠ "" := by
    intro h0
    have := congrArg String.data (h.symm.trans h0)
    simp at this
  rw [mountPath_nonempty cfg hne, h]
  exact trimSuffix_of_suffix p.data ['/']

theorem mountPath_suffix (cfg : Config) :
    HasSuffix (mountPath cfg) "/" = true ↔ HasSuffix cfg.Path "//" = true := by
  by_cases h0 : cfg.Path = ""
  · rw [mountPath_empty cfg h0, h0]
    decide
  · rw [mountPath_nonempty cfg h0]
    by_cases hs : HasSuffix cfg.Path "/" = true
    · obtain ⟨a, ha⟩ := (hasSuffix_iff _ _).mp hs
      have hP : cfg.Path = ⟨a ++ ['/']⟩ := by
        cases hp : cfg.Path with
        | mk d =>
          rw [hp] at ha
          exact congrArg String.mk ha.symm
      rw [hP]
      have ht : TrimSuffix ⟨a ++ ['/']⟩ "/" = ⟨a⟩ := trimSuffix_of_suffix a ['/']
      rw [ht, hasSuffix_iff, hasSuffix_iff]
      exact (slash_suffix_iff a).symm
    · rw [trimSuffix_of_not _ _ hs]
      constructor
      · intro h; exact absurd h hs
      · intro h
        have h2 := (hasSuffix_iff _ _).mp h
        have h1 : "/".data <:+ "//".data := ⟨['/'], rfl⟩
        exact (hasSuffix_iff _ _).mpr (h1.trans h2)

/-! ## The registry after `Load` -/

theorem loaded_kind_bound (w0 : World)
    (hreg : w0.registry.map (fun m => (m.name, m.kind, m.value)) =
      loadedKinds.map (fun p => (p.1, p.2, (0 : ℚ))))
    (m : Metric) (hm : m ∈ w0.registry) :
    (m.name = "mqtt_server_uptime" ∧ m.kind = .gauge) ∨
      ∃ e ∈ bindings, e.kind = m.kind ∧ e.name = m.name := by
  have hmem : (m.name, m.kind, m.value) ∈ loadedKinds.map (fun p => (p.1, p.2, (0 : ℚ))) := by
    rw [← hreg]
    exact List.mem_map_of_mem (fun m => (m.name, m.kind, m.value)) hm
  obtain ⟨p, hp, hpe⟩ := List.mem_map.mp hmem
  have h1 : p.1 = m.name := congrArg (fun q : String × MetricKind × ℚ => q.1) hpe
  have h2 : p.2 = m.kind := congrArg (fun q : String × MetricKind × ℚ => q.2.1) hpe
  unfold loadedKinds at hp
  rcases List.mem_cons.mp hp with rfl | hp'
  · exact Or.inl ⟨h1.symm, h2.symm⟩
  · obtain ⟨e, he, rfl⟩ := List.mem_map.mp hp'
    exact Or.inr ⟨e, he, h2, h1⟩

theorem binding_name_mem (e : Binding) (he : e ∈ bindings) :
    e.name ∈ "mqtt_server_uptime" :: bindings.map Binding.name :=
  List.mem_cons_of_mem _ (List.mem_map_of_mem _ he)

theorem binding_name_ne_uptime (e : Binding) (he : e ∈ bindings) :
    e.name ≠ "mqtt_server_uptime" := by
  intro h
  have hnd := loadedNames_nodup
  rw [List.nodup_cons] at hnd
  apply hnd.1
  rw [← h]
  exact List.mem_map_of_mem _ he

/-- The loaded bridge, its initial state and the state after a sequence of
accepted pushes, with the value of every bound instrument. -/
theorem loaded_pushAll (cfg : Config) (t0 : Time) (pushes : List (Time × Stats))
    (h : ∀ p ∈ pushes, p.2.countersNonneg) :
    ∃ w0 w1, Load cfg t0 World.empty = (.ok (loadedImpl cfg t0), w0) ∧
      w0.registry.map (fun m => (m.name, m.kind, m.value)) =
        loadedKinds.map (fun p => (p.1, p.2, (0 : ℚ))) ∧
      pushAll (loadedImpl cfg t0) pushes w0 = (.ok (), w1) ∧
      w1.registry.map Metric.name = w0.registry.map Metric.name ∧
      (∀ e ∈ bindings, w1.valueOf e.name =
        some (pushes.foldl (fun v p => e.update p.2 v) 0)) ∧
      ∃ u, w1.valueOf "mqtt_server_uptime" = some u := by
  obtain ⟨w0, hload, hreg, _⟩ := Load_empty cfg t0
  obtain ⟨w1, h1, h2, _, h4⟩ := pushAll_loaded cfg t0 pushes h w0
  refine ⟨w0, w1, hload, hreg, h1, h2, ?_, ?_⟩
  · intro e he
    rw [h4 e he, loaded_valueOf w0 hreg e.name (binding_name_mem e he)]
    rfl
  · have hup : w0.valueOf "mqtt_server_uptime" = some 0 :=
      loaded_valueOf w0 hreg _ (List.mem_cons_self _ _)
    have hin : "mqtt_server_uptime" ∈ w1.registry.map Metric.name := by
      rw [h2]
      unfold World.valueOf at hup
      cases hf : w0.registry.find? (fun m => m.name == "mqtt_server_uptime") with
      | none => rw [hf] at hup; cases hup
      | some m =>
        have hm : m.name = "mqtt_server_uptime" := by simpa using List.find?_some hf
        rw [← hm]
        exact List.mem_map_of_mem _ (List.mem_of_find?_eq_some hf)
    obtain ⟨m, hm, hmn⟩ := List.mem_map.mp hin
    unfold World.valueOf
    cases hf : w1.registry.find? (fun m => m.name == "mqtt_server_uptime") with
    | none =>
      have := List.find?_eq_none.mp hf m hm
      simp [hmn] at this
    | some m' => exact ⟨m'.value, rfl⟩

/-! ## Instruments a push does not write -/

/-- Whatever a sequence of statements does, and whether or not it panics,
an instrument none of its statements writes keeps its value. -/
theorem run_frame (ops : List Op) (w : World) (n : String)
    (hn : n ∉ ops.map Op.target) : (run ops w).2.valueOf n = w.valueOf n := by
  obtain ⟨pre, suf, h1, _, h3, _⟩ := run_result ops w
  rw [h3, valueOf_mapReg (applyOps pre) (applyOps_name pre) id n]
  · simp
  · intro m hm
    have : applyOps pre m = m := by
      apply applyOps_of_ne
      intro o ho heq
      apply hn
      rw [h1, ← hm, ← heq]
      exact List.mem_map_of_mem _ (List.mem_append_left _ ho)
    rw [this]; rfl

/-- A push whose bytes-sent field is negative panics at its second
statement, after the uptime gauge has been set. -/
theorem push_bytes_negative (cfg : Config) (t0 now : Time) (s : Stats)
    (h : s.Bytes.Sent.Get < 0) (w : World) :
    Push (loadedImpl cfg t0) now s w =
      (.error (.counterCannotDecrease "mqtt_bytes_total_sent"),
        w.mapReg (Op.fn (.Set "mqtt_server_uptime" (Seconds (Since now t0))))) := by
  have hneg : ¬ (Op.Add "mqtt_bytes_total_sent" (float64 s.Bytes.Sent.Get)).ok := by
    show ¬ (0 : ℚ) ≤ float64 s.Bytes.Sent.Get
    rw [float64_nonneg_iff]
    exact not_le.mpr h
  have hset : (Op.Set "mqtt_server_uptime" (Seconds (Since now t0))).ok := trivial
  show run (Op.Set "mqtt_server_uptime" (Seconds (Since now t0)) ::
    Op.Add "mqtt_bytes_total_sent" (float64 s.Bytes.Sent.Get) :: _) w = _
  rw [run_cons, Go.bind, exec_ok _ hset]
  show run (Op.Add "mqtt_bytes_total_sent" (float64 s.Bytes.Sent.Get) :: _) _ = _
  rw [run_cons, Go.bind, exec_not_ok _ hneg]
  rfl

theorem valueOf_mapReg_mono (f : Metric → Metric) (hf : ∀ m, (f m).name = m.name)
    (n : String) (hle : ∀ m, m.name = n → m.value ≤ (f m).value) (w : World) (v1 : ℚ)
    (h1 : w.valueOf n = some v1) : ∃ v2, (w.mapReg f).valueOf n = some v2 ∧ v1 ≤ v2 := by
  unfold World.valueOf World.mapReg at *
  simp only [find_map_name f hf]
  cases hfind : w.registry.find? (fun m => m.name == n) with
  | none => rw [hfind] at h1; cases h1
  | some m =>
    have hm : m.name = n := by simpa using List.find?_some hfind
    rw [hfind] at h1
    have hv : m.value = v1 := by simpa using h1
    exact ⟨(f m).value, rfl, hv ▸ hle m hm⟩

/-! ## Concrete conversions -/

theorem float64_rounds_down : float64 9007199254740993 = 9007199254740992 := by
  have h : roundNat 9007199254740993 = 9007199254740992 := by decide
  unfold float64
  rw [if_neg (by decide)]
  show ((roundNat 9007199254740993 : Nat) : ℚ) = 9007199254740992
  rw [h]
  norm_num

theorem float64_small (x : Int) (h : x.natAbs ≤ 100) : float64 x = (x : ℚ) :=
  float64_exact x (le_trans h (by decide))

/-- After a push with a negative bytes-sent field every bound instrument
has the value it had before. -/
theorem valueOf_push_bytes_negative (cfg : Config) (t0 now : Time) (s : Stats)
    (h : s.Bytes.Sent.Get < 0) (w : World) (e : Binding) (he : e ∈ bindings) :
    (Push (loadedImpl cfg t0) now s w).2.valueOf e.name = w.valueOf e.name := by
  rw [push_bytes_negative cfg t0 now s h w]
  show (w.mapReg _).valueOf e.name = _
  rw [valueOf_mapReg _ (fn_name _) id e.name]
  · simp
  · intro m hm
    rw [fn_of_ne _ m]
    · rfl
    · show "mqtt_server_uptime" ≠ m.name
      rw [hm]
      exact (binding_name_ne_uptime e he).symm

/-! ## The snapshot and the state after a push -/

/-- Two snapshots that agree on the 36 bound fields are the same snapshot. -/
theorem stats_ext (s t : Stats) (h : ∀ e ∈ bindings, e.field s = e.field t) : s = t := by
  simp only [bindings, List.forall_mem_cons, List.not_mem_nil, Value.Get, MaxValue.Get] at h
  rcases s with ⟨⟨⟨_⟩, ⟨_⟩⟩, ⟨⟨_⟩, ⟨_⟩, ⟨_, _⟩⟩,
    ⟨⟨⟨_⟩, ⟨_⟩⟩, ⟨_⟩, ⟨_⟩, ⟨⟨_⟩, ⟨_⟩⟩, ⟨⟨_⟩, ⟨_⟩⟩, ⟨⟨_⟩, ⟨_⟩⟩, ⟨⟨_⟩, ⟨_⟩⟩, ⟨⟨_⟩, ⟨_⟩⟩,
      ⟨_⟩, ⟨_⟩, ⟨_⟩, ⟨_⟩, ⟨_⟩, ⟨_⟩, ⟨⟨_⟩, ⟨_⟩⟩, ⟨⟨_⟩, ⟨_⟩⟩, ⟨_⟩, ⟨_⟩, ⟨_⟩, ⟨_⟩⟩, ⟨⟨_, _⟩⟩⟩
  rcases t with ⟨⟨⟨_⟩, ⟨_⟩⟩, ⟨⟨_⟩, ⟨_⟩, ⟨_, _⟩⟩,
    ⟨⟨⟨_⟩, ⟨_⟩⟩, ⟨_⟩, ⟨_⟩, ⟨⟨_⟩, ⟨_⟩⟩, ⟨⟨_⟩, ⟨_⟩⟩, ⟨⟨_⟩, ⟨_⟩⟩, ⟨⟨_⟩, ⟨_⟩⟩, ⟨⟨_⟩, ⟨_⟩⟩,
      ⟨_⟩, ⟨_⟩, ⟨_⟩, ⟨_⟩, ⟨_⟩, ⟨_⟩, ⟨⟨_⟩, ⟨_⟩⟩, ⟨⟨_⟩, ⟨_⟩⟩, ⟨_⟩, ⟨_⟩, ⟨_⟩, ⟨_⟩⟩, ⟨⟨_, _⟩⟩⟩
  simp only at h
  simp only [Stats.mk.injEq, Flow.mk.injEq, Value.mk.injEq, ClientsStats.mk.injEq,
    MaxValue.mk.injEq, PacketsStats.mk.injEq, SubsStats.mk.injEq]
  tauto

/-- The update a binding makes shows the converted field. -/
theorem update_inj (e : Binding) (s t : Stats) (v : ℚ) (h : e.update s v = e.update t v) :
    float64 (e.field s) = float64 (e.field t) := by
  unfold Binding.update at h
  cases hk : e.kind <;> rw [hk] at h <;> simp only at h
  · linarith
  · exact h

/-- The values the bound instruments hold after one push of the probe
snapshot on the freshly loaded bridge. -/
theorem probe_values (cfg : Config) (t0 now : Time) (w0 : World)
    (hreg : w0.registry.map (fun m => (m.name, m.kind, m.value)) =
      loadedKinds.map (fun p => (p.1, p.2, (0 : ℚ)))) :
    bindings.map (fun e => (w0.mapReg (pushFn cfg t0 now Stats.probe)).valueOf e.name) =
      (List.range' 1 36).map (fun k => some (k : ℚ)) := by
  have hfield : bindings.map (fun e => e.field Stats.probe) =
      (List.range' 1 36).map Int.ofNat := by decide
  have hsmall : ∀ e ∈ bindings, (e.field Stats.probe).natAbs ≤ 100 := by decide
  have h1 : bindings.map (fun e => (w0.mapReg (pushFn cfg t0 now Stats.probe)).valueOf e.name) =
      bindings.map (fun e => some ((e.field Stats.probe : Int) : ℚ)) := by
    apply List.map_congr_left
    intro e he
    rw [valueOf_push cfg t0 now Stats.probe e he,
      loaded_valueOf w0 hreg e.name (binding_name_mem e he)]
    unfold Binding.update
    rw [float64_small _ (hsmall e he)]
    cases e.kind <;> simp
  rw [h1]
  have h2 := congrArg (List.map (fun x : Int => some (x : ℚ))) hfield
  simpa [List.map_map, Function.comp_def] using h2

/-! ## The claims -/

/-- C1, refuted: (1) a snapshot with bytes-sent -1 and packets-total-sent 5
makes the push panic in the first counter add, and `mqtt_packets_total_sent`
is left at 0, not at 5; (2) a push with bytes-sent `2^53 + 1` leaves
`mqtt_bytes_total_sent` at `2^53`, the `float64` of the field. -/
theorem counter_is_not_the_sum :
    ∃ im w0 w1, Load ⟨"", "8080"⟩ 0 World.empty = (.ok im, w0) ∧
      (Push im 1 (Stats.withBytesAndPacketsSent (-1) 5) w0).1 =
        .error (.counterCannotDecrease "mqtt_bytes_total_sent") ∧
      (Push im 1 (Stats.withBytesAndPacketsSent (-1) 5) w0).2.valueOf
        "mqtt_packets_total_sent" = some 0 ∧
      Push im 1 (Stats.withBytesSent 9007199254740993) w0 = (.ok (), w1) ∧
      w1.valueOf "mqtt_bytes_total_sent" = some 9007199254740992 := by
  obtain ⟨w0, hload, hreg, _⟩ := Load_empty ⟨"", "8080"⟩ 0
  have he1 : (⟨"mqtt_packets_total_sent", .counter, fun s => s.Packets.Total.Sent.Get⟩ :
      Binding) ∈ bindings := by simp [bindings]
  have he2 : (⟨"mqtt_bytes_total_sent", .counter, fun s => s.Bytes.Sent.Get⟩ : Binding)
      ∈ bindings := List.mem_cons_self _ _
  refine ⟨_, w0, _, hload, ?_, ?_,
    Push_loaded _ _ _ (Stats.withBytesSent 9007199254740993) (by decide) w0, ?_⟩
  · rw [push_bytes_negative _ _ _ _ (by decide) w0]
  · rw [valueOf_push_bytes_negative _ _ _ _ (by decide) w0 _ he1]
    exact loaded_valueOf w0 hreg _ (binding_name_mem _ he1)
  · rw [valueOf_push _ _ _ _ _ he2 w0, loaded_valueOf w0 hreg _ (binding_name_mem _ he2)]
    simp [Binding.update, Stats.withBytesSent, Value.Get, float64_rounds_down]

/-- C1, amended: for every sequence of snapshots pushed to a freshly
initialised bridge in which no counter-backed field is negative (every push
of it completes), every registered counter is bound to one snapshot field
and its value after the sequence is the sum over all pushes of the
`float64` of that field, which is the sum of the fields themselves when
none exceeds `2^53`; one more push of any snapshot, whether it completes
or panics, leaves the counter at or above that value, and adds the
`float64` of its field when it completes. -/
theorem counters_accumulate (cfg : Config) (t0 : Time) (pushes : List (Time × Stats))
    (next : Time × Stats) (h : ∀ p ∈ pushes, p.2.countersNonneg) :
    ∃ im w0 w1, Load cfg t0 World.empty = (.ok im, w0) ∧
      pushAll im pushes w0 = (.ok (), w1) ∧
      (∀ m ∈ w0.registry, m.kind = .counter →
        ∃ e ∈ bindings, e.kind = .counter ∧ e.name = m.name) ∧
      ∀ e ∈ bindings, e.kind = .counter →
        w1.valueOf e.name = some ((pushes.map fun p => float64 (e.field p.2)).sum) ∧
        ((∀ p ∈ pushes, e.field p.2 ≤ 2 ^ 53) →
          w1.valueOf e.name = some ((pushes.map fun p => (e.field p.2 : ℚ)).sum)) ∧
        (∃ v2, (Push im next.1 next.2 w1).2.valueOf e.name = some v2 ∧
          (pushes.map fun p => float64 (e.field p.2)).sum ≤ v2) ∧
        (next.2.countersNonneg →
          Push im next.1 next.2 w1 = (.ok (), (Push im next.1 next.2 w1).2) ∧
          (Push im next.1 next.2 w1).2.valueOf e.name =
            some ((pushes.map fun p => float64 (e.field p.2)).sum +
              float64 (e.field next.2))) := by
  obtain ⟨w0, w1, hload, hreg, hall, _, hval, _⟩ := loaded_pushAll cfg t0 pushes h
  refine ⟨loadedImpl cfg t0, w0, w1, hload, hall, ?_, ?_⟩
  · intro m hm hk
    rcases loaded_kind_bound w0 hreg m hm with ⟨_, hg⟩ | ⟨e, he, hek, hen⟩
    · rw [hk] at hg; cases hg
    · exact ⟨e, he, hek.trans hk, hen⟩
  · intro e he hk
    have h1 := hval e he
    rw [foldl_counter e hk, zero_add] at h1
    refine ⟨h1, ?_, ?_, ?_⟩
    · intro hb
      rw [h1]
      congr 2
      apply List.map_congr_left
      intro p hp
      apply float64_exact
      have h0 : 0 ≤ e.field p.2 := h p hp e he hk
      have h2 := hb p hp
      omega
    · obtain ⟨f, hstate, hname, hmono⟩ := push_state cfg t0 next.1 next.2 w1
      obtain ⟨v2, hv2, hle⟩ := valueOf_mapReg_mono f hname e.name
        (fun m hm => hmono e he hk m hm) w1 _ h1
      exact ⟨v2, by rw [hstate]; exact hv2, hle⟩
    · intro hn
      rw [Push_loaded cfg t0 next.1 next.2 hn w1]
      refine ⟨rfl, ?_⟩
      show (w1.mapReg _).valueOf e.name = _
      rw [valueOf_push cfg t0 next.1 next.2 e he, h1]
      simp [Binding.update, hk]

/-- C1 amended, at the pushes bytes-sent 100 and then bytes-sent 25:
`mqtt_bytes_total_sent` is at 100 and then at 125. -/
theorem counters_accumulate_witness :
    ∃ im w0 w1 w2, Load ⟨"", "8080"⟩ 0 World.empty = (.ok im, w0) ∧
      pushAll im [(1, Stats.withBytesSent 100)] w0 = (.ok (), w1) ∧
      Push im 2 (Stats.withBytesSent 25) w1 = (.ok (), w2) ∧
      w1.valueOf "mqtt_bytes_total_sent" = some 100 ∧
      w2.valueOf "mqtt_bytes_total_sent" = some 125 := by
  obtain ⟨im, w0, w1, h1, h2, _, h4⟩ :=
    counters_accumulate ⟨"", "8080"⟩ 0 [(1, Stats.withBytesSent 100)]
      (2, Stats.withBytesSent 25) (by decide)
  obtain ⟨_, hv1, _, hv2⟩ :=
    h4 ⟨"mqtt_bytes_total_sent", .counter, fun s => s.Bytes.Sent.Get⟩
      (List.mem_cons_self _ _) rfl
  obtain ⟨hok, hv2⟩ := hv2 (by decide)
  have f25 : float64 25 = 25 := by
    rw [float64_small 25 (by decide)]
    norm_num
  refine ⟨im, w0, w1, _, h1, h2, hok, ?_, ?_⟩
  · rw [hv1 (by decide)]
    norm_num [Stats.withBytesSent, Value.Get]
  · rw [hv2]
    have h100 : float64 100 = 100 := by
      rw [float64_small 100 (by decide)]
      norm_num
    simp only [List.map_cons, List.map_nil, List.sum_cons, List.sum_nil]
    simp only [Stats.withBytesSent, Value.Get, h100, f25]
    norm_num

/-- C2, refuted: (1) when the last snapshot has bytes-sent -10,
clients-connected 3 and clients watermark 9, the push panics before the
gauges are written and `mqtt_clients_connected` and `mqtt_clients_maximum`
are left at 0; (2) a push with clients-connected `2^53 + 1` leaves
`mqtt_clients_connected` at `2^53`. -/
theorem gauge_is_not_the_last_field :
    ∃ im w0 w1, Load ⟨"", "8080"⟩ 0 World.empty = (.ok im, w0) ∧
      (Push im 1 (Stats.withBytesAndClients (-10) 3 9) w0).1 =
        .error (.counterCannotDecrease "mqtt_bytes_total_sent") ∧
      (Push im 1 (Stats.withBytesAndClients (-10) 3 9) w0).2.valueOf
        "mqtt_clients_connected" = some 0 ∧
      (Push im 1 (Stats.withBytesAndClients (-10) 3 9) w0).2.valueOf
        "mqtt_clients_maximum" = some 0 ∧
      Push im 1 (Stats.withClientsConnected 9007199254740993) w0 = (.ok (), w1) ∧
      w1.valueOf "mqtt_clients_connected" = some 9007199254740992 := by
  obtain ⟨w0, hload, hreg, _⟩ := Load_empty ⟨"", "8080"⟩ 0
  have he1 : (⟨"mqtt_clients_connected", .gauge, fun s => s.Clients.Connected.Get⟩ :
      Binding) ∈ bindings := by simp [bindings]
  have he2 : (⟨"mqtt_clients_maximum", .gauge, fun s => s.Clients.Total.Max⟩ : Binding)
      ∈ bindings := by simp [bindings]
  refine ⟨_, w0, _, hload, ?_, ?_, ?_,
    Push_loaded _ _ _ (Stats.withClientsConnected 9007199254740993) (by decide) w0, ?_⟩
  · rw [push_bytes_negative _ _ _ _ (by decide) w0]
  · rw [valueOf_push_bytes_negative _ _ _ _ (by decide) w0 _ he1]
    exact loaded_valueOf w0 hreg _ (binding_name_mem _ he1)
  · rw [valueOf_push_bytes_negative _ _ _ _ (by decide) w0 _ he2]
    exact loaded_valueOf w0 hreg _ (binding_name_mem _ he2)
  · rw [valueOf_push _ _ _ _ _ he1 w0, loaded_valueOf w0 hreg _ (binding_name_mem _ he1)]
    simp [Binding.update, Stats.withClientsConnected, Value.Get, float64_rounds_down]

/-- C2, amended: for every non-empty sequence of pushes in which no
counter-backed field is negative (every push of it completes), every
registered gauge other than the uptime gauge is bound to one snapshot
field, and its value after the sequence is the `float64` of that field of
the last snapshot, the field itself when its magnitude does not exceed
`2^53`, whatever was pushed before; the two maximum gauges hold the
`float64` of the `Max` of the last snapshot. -/
theorem gauges_replace (cfg : Config) (t0 : Time) (pushes : List (Time × Stats))
    (last : Time × Stats) (h : ∀ p ∈ pushes ++ [last], p.2.countersNonneg) :
    ∃ im w0 w1, Load cfg t0 World.empty = (.ok im, w0) ∧
      pushAll im (pushes ++ [last]) w0 = (.ok (), w1) ∧
      (∀ m ∈ w0.registry, m.kind = .gauge → m.name = "mqtt_server_uptime" ∨
        ∃ e ∈ bindings, e.kind = .gauge ∧ e.name = m.name) ∧
      (∀ e ∈ bindings, e.kind = .gauge →
        w1.valueOf e.name = some (float64 (e.field last.2)) ∧
        ((e.field last.2).natAbs ≤ 2 ^ 53 →
          w1.valueOf e.name = some (e.field last.2 : ℚ))) ∧
      w1.valueOf "mqtt_clients_maximum" = some (float64 last.2.Clients.Total.Max) ∧
      w1.valueOf "mqtt_subscriptions_maximum" = some (float64 last.2.Subs.Total.Max) := by
  obtain ⟨w0, w1, hload, hreg, hall, _, hval, _⟩ := loaded_pushAll cfg t0 (pushes ++ [last]) h
  have hg : ∀ e ∈ bindings, e.kind = .gauge →
      w1.valueOf e.name = some (float64 (e.field last.2)) := by
    intro e he hk
    rw [hval e he, foldl_gauge e hk]
  refine ⟨loadedImpl cfg t0, w0, w1, hload, hall, ?_, ?_, ?_, ?_⟩
  · intro m hm hk
    rcases loaded_kind_bound w0 hreg m hm with ⟨hn, _⟩ | ⟨e, he, hek, hen⟩
    · exact Or.inl hn
    · exact Or.inr ⟨e, he, hek.trans hk, hen⟩
  · intro e he hk
    refine ⟨hg e he hk, fun hb => ?_⟩
    rw [hg e he hk, float64_exact _ hb]
  · exact hg ⟨"mqtt_clients_maximum", .gauge, fun s => s.Clients.Total.Max⟩
      (by simp [bindings]) rfl
  · exact hg ⟨"mqtt_subscriptions_maximum", .gauge, fun s => s.Subs.Total.Max⟩
      (by simp [bindings]) rfl

/-- C2 amended, at the pushes clients-connected 3 and then 1, and watermark
9 and then 4: `mqtt_clients_connected` is at 1 and `mqtt_clients_maximum`
at 4. -/
theorem gauges_replace_witness :
    ∃ im w0 w1, Load ⟨"", "8080"⟩ 0 World.empty = (.ok im, w0) ∧
      pushAll im [(1, Stats.withBytesAndClients 0 3 9),
        (2, Stats.withBytesAndClients 0 1 4)] w0 = (.ok (), w1) ∧
      w1.valueOf "mqtt_clients_connected" = some 1 ∧
      w1.valueOf "mqtt_clients_maximum" = some 4 := by
  obtain ⟨im, w0, w1, h1, h2, _, h4, _, _⟩ :=
    gauges_replace ⟨"", "8080"⟩ 0 [(1, Stats.withBytesAndClients 0 3 9)]
      (2, Stats.withBytesAndClients 0 1 4) (by decide)
  refine ⟨im, w0, w1, h1, h2, ?_, ?_⟩
  · have := (h4 ⟨"mqtt_clients_connected", .gauge, fun s => s.Clients.Connected.Get⟩
      (by simp [bindings]) rfl).2 (by decide)
    rw [this]
    norm_num [Stats.withBytesAndClients, Value.Get]
  · have := (h4 ⟨"mqtt_clients_maximum", .gauge, fun s => s.Clients.Total.Max⟩
      (by simp [bindings]) rfl).2 (by decide)
    rw [this]
    norm_num [Stats.withBytesAndClients]

/-- C3, refuted: on the freshly loaded bridge a push of the probe snapshot
with bytes-sent -1 panics in the first counter add; `mqtt_bytes_total_recv`
(field 2) and `mqtt_subscriptions_maximum` (field 36) are not written and
stay at 0. -/
theorem push_stops_at_negative_counter :
    ∃ im w0, Load ⟨"", "8080"⟩ 0 World.empty = (.ok im, w0) ∧
      (Push im 1 Stats.probeNegative w0).1 =
        .error (.counterCannotDecrease "mqtt_bytes_total_sent") ∧
      Stats.probeNegative.Bytes.Recv.Get = 2 ∧
      (Push im 1 Stats.probeNegative w0).2.valueOf "mqtt_bytes_total_recv" = some 0 ∧
      Stats.probeNegative.Subs.Total.Max = 36 ∧
      (Push im 1 Stats.probeNegative w0).2.valueOf "mqtt_subscriptions_maximum" = some 0 := by
  obtain ⟨w0, hload, hreg, _⟩ := Load_empty ⟨"", "8080"⟩ 0
  have he1 : (⟨"mqtt_bytes_total_recv", .counter, fun s => s.Bytes.Recv.Get⟩ : Binding)
      ∈ bindings := by simp [bindings]
  have he2 : (⟨"mqtt_subscriptions_maximum", .gauge, fun s => s.Subs.Total.Max⟩ : Binding)
      ∈ bindings := by simp [bindings]
  refine ⟨_, w0, hload, ?_, rfl, ?_, rfl, ?_⟩
  · rw [push_bytes_negative _ _ _ _ (by decide) w0]
  · rw [valueOf_push_bytes_negative _ _ _ _ (by decide) w0 _ he1]
    exact loaded_valueOf w0 hreg _ (binding_name_mem _ he1)
  · rw [valueOf_push_bytes_negative _ _ _ _ (by decide) w0 _ he2]
    exact loaded_valueOf w0 hreg _ (binding_name_mem _ he2)

/-- C3, amended: in every state reached by accepted pushes, a push of a
snapshot with no negative counter-backed field completes and updates each
of the 37 instruments `Load` registered exactly once, and no other
instrument.  The statements of `Push` name the 37 registered instruments,
each once; after the push the registry holds the same instruments, the
uptime gauge holds the elapsed seconds, every counter its prior value plus
the `float64` of its snapshot field, and every snapshot-backed gauge the
`float64` of its snapshot field; an instrument that is not one of the 37
keeps its value.  The 36 fields are pairwise different and no field is
left out: a push of the probe snapshot on the fresh bridge leaves the
values 1 to 36 in the 36 bound instruments, and two snapshots with fields
of magnitude at most `2^53` that lead to the same state are equal. -/
theorem push_writes_each_instrument_once (cfg : Config) (t0 : Time)
    (pushes : List (Time × Stats)) (now : Time) (s : Stats)
    (h : ∀ p ∈ pushes, p.2.countersNonneg) (hs : s.countersNonneg) :
    ∃ im w0 w1 w2 wp, Load cfg t0 World.empty = (.ok im, w0) ∧
      pushAll im pushes w0 = (.ok (), w1) ∧
      Push im now s w1 = (.ok (), w2) ∧
      w0.registry.length = 37 ∧
      (pushOps im now s).map Op.target = w0.registry.map Metric.name ∧
      ((pushOps im now s).map Op.target).Nodup ∧
      w2.registry.map Metric.name = w0.registry.map Metric.name ∧
      (∀ m ∈ w0.registry, (m.name = "mqtt_server_uptime" ∧ m.kind = .gauge) ∨
        ∃ e ∈ bindings, e.kind = m.kind ∧ e.name = m.name) ∧
      w2.valueOf "mqtt_server_uptime" = some (Seconds (Since now t0)) ∧
      (∀ e ∈ bindings, ∃ v1, w1.valueOf e.name = some v1 ∧
        (e.kind = .counter → w2.valueOf e.name = some (v1 + float64 (e.field s))) ∧
        (e.kind = .gauge → w2.valueOf e.name = some (float64 (e.field s)))) ∧
      (∀ (w : World) (n : String), n ∉ w0.registry.map Metric.name →
        (Push im now s w).2.valueOf n = w.valueOf n) ∧
      Push im now Stats.probe w0 = (.ok (), wp) ∧
      bindings.map (fun e => wp.valueOf e.name) =
        (List.range' 1 36).map (fun k => some (k : ℚ)) ∧
      ∀ t : Stats, t.countersNonneg →
        (∀ e ∈ bindings, (e.field s).natAbs ≤ 2 ^ 53 ∧ (e.field t).natAbs ≤ 2 ^ 53) →
        (Push im now t w1).2 = w2 → t = s := by
  obtain ⟨w0, w1, hload, hreg, hall, hn1, hval, u, hu⟩ := loaded_pushAll cfg t0 pushes h
  have hnames : w0.registry.map Metric.name =
      "mqtt_server_uptime" :: bindings.map Binding.name := by
    have := congrArg (List.map (fun p : String × MetricKind × ℚ => p.1)) hreg
    simpa [loadedKinds, List.map_map, Function.comp_def] using this
  have hlen : w0.registry.length = 37 := by
    have := congrArg List.length hnames
    simpa [bindings] using this
  refine ⟨loadedImpl cfg t0, w0, w1, _, _, hload, hall, Push_loaded cfg t0 now s hs w1, hlen,
    ?_, ?_, ?_, fun m hm => loaded_kind_bound w0 hreg m hm, ?_, ?_, ?_,
    Push_loaded cfg t0 now Stats.probe (by decide) w0, probe_values cfg t0 now w0 hreg, ?_⟩
  · rw [pushTargets, hnames]
  · rw [pushTargets]; exact loadedNames_nodup
  · rw [names_mapReg _ (pushFn_name cfg t0 now s), hn1]
  · rw [valueOf_push_uptime, hu]
    rfl
  · intro e he
    refine ⟨_, hval e he, ?_, ?_⟩
    · intro hk
      rw [valueOf_push cfg t0 now s e he, hval e he]
      simp [Binding.update, hk]
    · intro hk
      rw [valueOf_push cfg t0 now s e he, hval e he]
      simp [Binding.update, hk]
  · intro w n hn
    apply run_frame
    rw [pushTargets, ← hnames]
    exact hn
  · intro t ht hb hstate
    apply stats_ext
    intro e he
    have h1 := congrArg (fun w : World => w.valueOf e.name) hstate
    simp only at h1
    rw [Push_loaded cfg t0 now t ht w1] at h1
    have h2 : (w1.mapReg (pushFn cfg t0 now t)).valueOf e.name =
        (w1.mapReg (pushFn cfg t0 now s)).valueOf e.name := h1
    rw [valueOf_push cfg t0 now t e he, valueOf_push cfg t0 now s e he, hval e he] at h2
    have h3 := update_inj e t s _ (Option.some.inj h2)
    rw [float64_exact _ (hb e he).2, float64_exact _ (hb e he).1] at h3
    exact_mod_cast h3

/-- C3 amended, after one push with bytes-sent 100: a push of the probe
snapshot moves `mqtt_bytes_total_sent` from 100 to 101 and sets
`mqtt_subscriptions_maximum` to 36 and the uptime gauge to 2 seconds. -/
theorem push_writes_each_instrument_once_witness :
    ∃ im w0 w1 w2, Load ⟨"", "8080"⟩ 0 World.empty = (.ok im, w0) ∧
      pushAll im [(1, Stats.withBytesSent 100)] w0 = (.ok (), w1) ∧
      Push im 2000000000 Stats.probe w1 = (.ok (), w2) ∧
      w1.valueOf "mqtt_bytes_total_sent" = some 100 ∧
      w2.valueOf "mqtt_bytes_total_sent" = some 101 ∧
      w2.valueOf "mqtt_subscriptions_maximum" = some 36 ∧
      w2.valueOf "mqtt_server_uptime" = some 2 := by
  obtain ⟨im, w0, w1, w2, _, h1, h2, h3, _, _, _, _, _, h9, h10, _⟩ :=
    push_writes_each_instrument_once ⟨"", "8080"⟩ 0 [(1, Stats.withBytesSent 100)]
      2000000000 Stats.probe (by decide) (by decide)
  have he1 : (⟨"mqtt_bytes_total_sent", .counter, fun s => s.Bytes.Sent.Get⟩ : Binding)
      ∈ bindings := List.mem_cons_self _ _
  have he2 : (⟨"mqtt_subscriptions_maximum", .gauge, fun s => s.Subs.Total.Max⟩ : Binding)
      ∈ bindings := by simp [bindings]
  obtain ⟨w0', hload, hreg, _⟩ := Load_empty ⟨"", "8080"⟩ 0
  have him : im = loadedImpl ⟨"", "8080"⟩ 0 ∧ w0 = w0' := by
    have := h1.symm.trans hload
    simpa using this
  obtain ⟨rfl, rfl⟩ := him
  have hv1 : w1.valueOf "mqtt_bytes_total_sent" = some 100 := by
    obtain ⟨w1', hp, _, _, hv⟩ := pushAll_loaded ⟨"", "8080"⟩ 0 [(1, Stats.withBytesSent 100)]
      (by decide) w0
    have hw : w1 = w1' := by
      have := h2.symm.trans hp
      simpa using this
    rw [hw, hv _ he1, loaded_valueOf w0 hreg _ (binding_name_mem _ he1)]
    have f100 : float64 100 = 100 := by
      rw [float64_small 100 (by decide)]
      norm_num
    simp [Binding.update, Stats.withBytesSent, Value.Get, f100]
  have f1 : float64 1 = 1 := by
    rw [float64_small 1 (by decide)]
    norm_num
  have f36 : float64 36 = 36 := by
    rw [float64_small 36 (by decide)]
    norm_num
  refine ⟨_, w0, w1, w2, h1, h2, h3, hv1, ?_, ?_, ?_⟩
  · obtain ⟨v1, hv, hc, _⟩ := h10 _ he1
    rw [hc rfl]
    have : v1 = 100 := by
      have := hv.symm.trans hv1
      simpa using this
    rw [this]
    simp only [Stats.probe, Value.Get, f1]
    norm_num
  · obtain ⟨_, _, _, hg⟩ := h10 _ he2
    rw [hg rfl]
    simp only [Stats.probe, f36]
  · rw [h9]
    norm_num [Seconds, Since]

/-- C4, refuted: after a push with clients-connected 3, a push of the
all-zero snapshot moves `mqtt_clients_connected` from 3 to 0. -/
theorem zero_push_resets_gauge :
    ∃ im w0 w1 w2, Load ⟨"", "8080"⟩ 0 World.empty = (.ok im, w0) ∧
      Push im 1 (Stats.withClientsConnected 3) w0 = (.ok (), w1) ∧
      Push im 2 Stats.zero w1 = (.ok (), w2) ∧
      w1.valueOf "mqtt_clients_connected" = some 3 ∧
      w2.valueOf "mqtt_clients_connected" = some 0 ∧
      w2.valueOf "mqtt_clients_connected" ≠ w1.valueOf "mqtt_clients_connected" := by
  obtain ⟨w0, hload, hreg, _⟩ := Load_empty ⟨"", "8080"⟩ 0
  have he : (⟨"mqtt_clients_connected", .gauge, fun s => s.Clients.Connected.Get⟩ : Binding)
      ∈ bindings := by simp [bindings]
  have h0 : w0.valueOf "mqtt_clients_connected" = some 0 :=
    loaded_valueOf w0 hreg _ (binding_name_mem _ he)
  have f3 : float64 3 = 3 := by
    rw [float64_small 3 (by decide)]
    norm_num
  have h1 := valueOf_push ⟨"", "8080"⟩ 0 1 (Stats.withClientsConnected 3) _ he w0
  have h2 := valueOf_push ⟨"", "8080"⟩ 0 2 Stats.zero _ he
    (w0.mapReg (pushFn ⟨"", "8080"⟩ 0 1 (Stats.withClientsConnected 3)))
  have e1 : (w0.mapReg (pushFn ⟨"", "8080"⟩ 0 1 (Stats.withClientsConnected 3))).valueOf
      "mqtt_clients_connected" = some 3 := by
    rw [h1, h0]
    simp [Binding.update, Stats.withClientsConnected, Value.Get, f3]
  have e2 : ((w0.mapReg (pushFn ⟨"", "8080"⟩ 0 1 (Stats.withClientsConnected 3))).mapReg
      (pushFn ⟨"", "8080"⟩ 0 2 Stats.zero)).valueOf "mqtt_clients_connected" = some 0 := by
    rw [h2, e1]
    simp [Binding.update, Stats.zero, Value.Get, float64_zero]
  refine ⟨_, w0, _, _, hload, Push_loaded _ _ _ _ (by decide) w0,
    Push_loaded _ _ _ _ (by decide) _, e1, e2, ?_⟩
  rw [e1, e2]
  norm_num

/-- C4, amended: in every state reached by accepted pushes, a push of the
all-zero snapshot completes, leaves every counter at its value, sets every
snapshot-backed gauge to 0 and sets the uptime gauge to the elapsed
seconds. -/
theorem zero_push_effect (cfg : Config) (t0 : Time) (pushes : List (Time × Stats))
    (now : Time) (h : ∀ p ∈ pushes, p.2.countersNonneg) :
    ∃ im w0 w1 w2, Load cfg t0 World.empty = (.ok im, w0) ∧
      pushAll im pushes w0 = (.ok (), w1) ∧
      Push im now Stats.zero w1 = (.ok (), w2) ∧
      (∀ e ∈ bindings, e.kind = .counter → w2.valueOf e.name = w1.valueOf e.name) ∧
      (∀ e ∈ bindings, e.kind = .gauge → w2.valueOf e.name = some 0) ∧
      w2.valueOf "mqtt_server_uptime" = some (Seconds (Since now t0)) := by
  obtain ⟨w0, w1, hload, _, hall, _, hval, u, hu⟩ := loaded_pushAll cfg t0 pushes h
  have hz : ∀ e ∈ bindings, float64 (e.field Stats.zero) = 0 := by
    intro e he
    have : e.field Stats.zero = 0 := by
      revert e
      decide
    rw [this]; exact float64_zero
  refine ⟨loadedImpl cfg t0, w0, w1, _, hload, hall,
    Push_loaded cfg t0 now Stats.zero (by decide) w1, ?_, ?_, ?_⟩
  · intro e he hk
    rw [valueOf_push cfg t0 now Stats.zero e he, hval e he]
    simp [Binding.update, hk, hz e he]
  · intro e he hk
    rw [valueOf_push cfg t0 now Stats.zero e he, hval e he]
    simp [Binding.update, hk, hz e he]
  · rw [valueOf_push_uptime, hu]
    rfl

/-- C4 amended, after one push with clients-connected 3. -/
theorem zero_push_effect_witness :
    ∃ im w0 w1 w2, Load ⟨"", "8080"⟩ 0 World.empty = (.ok im, w0) ∧
      pushAll im [(1, Stats.withClientsConnected 3)] w0 = (.ok (), w1) ∧
      Push im 2000000000 Stats.zero w1 = (.ok (), w2) ∧
      w2.valueOf "mqtt_bytes_total_sent" = w1.valueOf "mqtt_bytes_total_sent" ∧
      w2.valueOf "mqtt_clients_connected" = some 0 ∧
      w2.valueOf "mqtt_server_uptime" = some 2 := by
  obtain ⟨im, w0, w1, w2, h1, h2, h3, h4, h5, h6⟩ :=
    zero_push_effect ⟨"", "8080"⟩ 0 [(1, Stats.withClientsConnected 3)] 2000000000 (by decide)
  refine ⟨im, w0, w1, w2, h1, h2, h3, ?_, ?_, ?_⟩
  · exact h4 ⟨"mqtt_bytes_total_sent", .counter, fun s => s.Bytes.Sent.Get⟩
      (by simp [bindings]) rfl
  · exact h5 ⟨"mqtt_clients_connected", .gauge, fun s => s.Clients.Connected.Get⟩
      (by simp [bindings]) rfl
  · rw [h6]
    norm_num [Seconds, Since]

/-- C5: `Load` on the empty registry returns the bridge without a panic
and leaves 37 registered instruments whose names are pairwise distinct:
the uptime gauge followed by the 36 bound instruments. -/
theorem load_names_distinct (cfg : Config) (t0 : Time) :
    ∃ im w0, Load cfg t0 World.empty = (.ok im, w0) ∧
      w0.registry.length = 37 ∧
      (w0.registry.map Metric.name).Nodup ∧
      w0.registry.map Metric.name = "mqtt_server_uptime" :: bindings.map Binding.name := by
  obtain ⟨w0, hload, hreg, _⟩ := Load_empty cfg t0
  have hnames : w0.registry.map Metric.name =
      "mqtt_server_uptime" :: bindings.map Binding.name := by
    have := congrArg (List.map (fun p : String × MetricKind × ℚ => p.1)) hreg
    simpa [loadedKinds, List.map_map, Function.comp_def] using this
  have hlen : w0.registry.length = 37 := by
    have := congrArg List.length hnames
    simpa [bindings] using this
  exact ⟨loadedImpl cfg t0, w0, hload, hlen, hnames ▸ loadedNames_nodup, hnames⟩

/-- C6: on a state left by a `Load` that returned, from whatever state it
started, a second `Load` with any configuration panics with the
duplicate-registration failure at its first registration (the uptime
gauge) and leaves the state, registry included, exactly as it was. -/
theorem second_Load_fails (cfg1 cfg2 : Config) (t1 t2 : Time) (w : World) (im : impl)
    (w1 : World) (h : Load cfg1 t1 w = (.ok im, w1)) :
    Load cfg2 t2 w1 = (.error (.duplicateRegistration "mqtt_server_uptime"), w1) :=
  Load_registered cfg2 t2 w1 (Load_ok_registered cfg1 t1 w im w1 h)

/-- C6, on the empty registry with the default configuration. -/
theorem second_Load_fails_witness :
    ∃ im w1, Load ⟨"", "8080"⟩ 0 World.empty = (.ok im, w1) ∧
      Load ⟨"", "8080"⟩ 5 w1 =
        (.error (.duplicateRegistration "mqtt_server_uptime"), w1) := by
  obtain ⟨w0, hload, _⟩ := Load_empty ⟨"", "8080"⟩ 0
  exact ⟨_, w0, hload, second_Load_fails _ _ _ _ _ _ _ hload⟩

/-- C7, refuted: with `Path` "/metrics//" the handler is mounted under
"/metrics/", which ends in a slash. -/
theorem mount_path_keeps_a_slash :
    ∃ im w0, Load ⟨"/metrics//", "8080"⟩ 0 World.empty = (.ok im, w0) ∧
      w0.handlers = [("8080", "/metrics/")] ∧
      HasSuffix "/metrics/" "/" = true := by
  obtain ⟨w0, hload, _, hh⟩ := Load_empty ⟨"/metrics//", "8080"⟩ 0
  have hm : mountPath ⟨"/metrics//", "8080"⟩ = "/metrics/" := by decide
  rw [hm] at hh
  exact ⟨_, w0, hload, hh, by decide⟩

/-- C7, amended: the path `Load` mounts the handler under (and keeps in the
bridge's configuration) is "/metrics" when `Path` is empty; it is `Path`
without its last character when `Path` ends in a slash, and `Path` itself
when `Path` is not empty and does not end in a slash; the mounted path ends
in a slash exactly when `Path` ends in two. -/
theorem mount_path (cfg : Config) (t0 : Time) :
    ∃ im w0, Load cfg t0 World.empty = (.ok im, w0) ∧
      w0.handlers = [(cfg.Port, im.config.Path)] ∧
      (cfg.Path = "" → im.config.Path = "/metrics") ∧
      (∀ p : String, cfg.Path = p ++ "/" → im.config.Path = p) ∧
      (cfg.Path ≠ "" → HasSuffix cfg.Path "/" = false → im.config.Path = cfg.Path) ∧
      (HasSuffix im.config.Path "/" = true ↔ HasSuffix cfg.Path "//" = true) := by
  obtain ⟨w0, hload, _, hh⟩ := Load_empty cfg t0
  refine ⟨loadedImpl cfg t0, w0, hload, hh, mountPath_empty cfg, mountPath_slash cfg, ?_,
    mountPath_suffix cfg⟩
  intro hne hs
  show mountPath cfg = cfg.Path
  rw [mountPath_nonempty cfg hne]
  exact trimSuffix_of_not _ _ (by rw [hs]; simp)

/-- C8, refuted: a push with bytes-sent -10 on the freshly loaded bridge
does not complete; it panics in the counter add of `mqtt_bytes_total_sent`. -/
theorem negative_delta_panics :
    ∃ im w0, Load ⟨"", "8080"⟩ 0 World.empty = (.ok im, w0) ∧
      (Push im 1 (Stats.withBytesSent (-10)) w0).1 =
        .error (.counterCannotDecrease "mqtt_bytes_total_sent") := by
  obtain ⟨w0, hload, _⟩ := Load_empty ⟨"", "8080"⟩ 0
  refine ⟨_, w0, hload, ?_⟩
  rw [push_bytes_negative ⟨"", "8080"⟩ 0 1 (Stats.withBytesSent (-10)) (by decide) w0]

/-- C8, amended: in every state reached by accepted pushes, a push
completes exactly when no counter-backed field of the snapshot is negative;
nothing is clamped, so a negative bytes-sent field makes the push panic in
the counter add of `mqtt_bytes_total_sent`, with every bound instrument
left at its value; and whether the push completes or panics, no counter is
lower afterwards than before. -/
theorem push_counters_never_decrease (cfg : Config) (t0 : Time)
    (pushes : List (Time × Stats)) (now : Time) (s : Stats)
    (h : ∀ p ∈ pushes, p.2.countersNonneg) :
    ∃ im w0 w1, Load cfg t0 World.empty = (.ok im, w0) ∧
      pushAll im pushes w0 = (.ok (), w1) ∧
      ((Push im now s w1).1 = .ok () ↔ s.countersNonneg) ∧
      (s.Bytes.Sent.Get < 0 →
        (Push im now s w1).1 = .error (.counterCannotDecrease "mqtt_bytes_total_sent") ∧
        ∀ e ∈ bindings, (Push im now s w1).2.valueOf e.name = w1.valueOf e.name) ∧
      ∀ e ∈ bindings, e.kind = .counter →
        ∃ v1 v2, w1.valueOf e.name = some v1 ∧
          (Push im now s w1).2.valueOf e.name = some v2 ∧ v1 ≤ v2 := by
  obtain ⟨w0, w1, hload, _, hall, _, hval, _⟩ := loaded_pushAll cfg t0 pushes h
  refine ⟨loadedImpl cfg t0, w0, w1, hload, hall, push_ok_iff cfg t0 now s w1, ?_, ?_⟩
  · intro hneg
    refine ⟨?_, fun e he => valueOf_push_bytes_negative cfg t0 now s hneg w1 e he⟩
    rw [push_bytes_negative cfg t0 now s hneg w1]
  · intro e he hk
    obtain ⟨f, hstate, hname, hmono⟩ := push_state cfg t0 now s w1
    obtain ⟨v2, hv2, hle⟩ := valueOf_mapReg_mono f hname e.name
      (fun m hm => hmono e he hk m hm) w1 _ (hval e he)
    exact ⟨_, v2, hval e he, by rw [hstate]; exact hv2, hle⟩

/-- C8 amended, after a push with bytes-sent 100: a push with bytes-sent
-10 panics and `mqtt_bytes_total_sent` stays at 100. -/
theorem push_counters_never_decrease_witness :
    ∃ im w0 w1, Load ⟨"", "8080"⟩ 0 World.empty = (.ok im, w0) ∧
      pushAll im [(1, Stats.withBytesSent 100)] w0 = (.ok (), w1) ∧
      (Push im 2 (Stats.withBytesSent (-10)) w1).1 =
        .error (.counterCannotDecrease "mqtt_bytes_total_sent") ∧
      (Push im 2 (Stats.withBytesSent (-10)) w1).2.valueOf "mqtt_bytes_total_sent" =
        w1.valueOf "mqtt_bytes_total_sent" := by
  obtain ⟨im, w0, w1, h1, h2, _, h4, _⟩ :=
    push_counters_never_decrease ⟨"", "8080"⟩ 0 [(1, Stats.withBytesSent 100)] 2
      (Stats.withBytesSent (-10)) (by decide)
  obtain ⟨h5, h6⟩ := h4 (by decide)
  exact ⟨im, w0, w1, h1, h2, h5,
    h6 ⟨"mqtt_bytes_total_sent", .counter, fun s => s.Bytes.Sent.Get⟩ (List.mem_cons_self _ _)⟩

/-- C9: `Shutdown` returns the nil error and leaves the state, and with it
every instrument's value and the registry, as it was. -/
theorem shutdown_noop (im : impl) (w : World) :
    Shutdown im w = (.ok none, w) ∧
      (Shutdown im w).2.registry = w.registry ∧
      ∀ n, (Shutdown im w).2.valueOf n = w.valueOf n :=
  ⟨rfl, rfl, fun _ => rfl⟩

/-- C10, the code at fault: the four send-only packet counters, whose help
texts say "packets sent", are registered by `newPackets` under names that
end in `_recv`; no instrument named `mqtt_packets_connack_sent` exists. -/
theorem send_only_counters_named_recv :
    (((newPackets World.empty).2.registry.filter fun m =>
        HasSuffix m.name "_recv" &&
          HasSuffix m.help " packets sent since server start").map
      fun m => (m.name, m.help)) =
      [("mqtt_packets_connack_recv",
          "The total number of connack packets sent since server start"),
        ("mqtt_packets_suback_recv",
          "The total number of suback packets sent since server start"),
        ("mqtt_packets_unsuback_recv",
          "The total number of unsuback packets sent since server start"),
        ("mqtt_packets_pingresp_recv",
          "The total number of pingresp packets sent since server start")] ∧
      (newPackets World.empty).2.registered "mqtt_packets_connack_sent" = false := by
  decide

end Prometheus
